import Mathlib

/-!
Verification of the Schedule Reconciliation & Derived-Availability Engine
(family-swim-sf).  The Python source (src/pdf_parser.py and friends) is
shallowly embedded: Python strings are modelled as lists of Unicode code
points (`List Nat`), dicts keyed by weekday name as association lists, and
the external extraction oracle as an explicit function parameter.  Python
code that raises an exception is modelled with `Option` where the claims
depend on it; places where the source would raise on inputs outside every
claim's scope (e.g. `normalize_time('')`, which raises IndexError in
Python) are noted next to the definition.
-/

/-- A Python string: the list of its character code points. -/
abbrev PyStr := List Nat

/-- Helper to write `PyStr` literals from Lean string literals. -/
def pys (s : String) : PyStr := s.data.map Char.toNat

/-- ASCII uppercase of one code point (Python `str.upper`, ASCII range;
the inputs in this development are ASCII). -/
def upperN (c : Nat) : Nat := if 97 ≤ c ∧ c ≤ 122 then c - 32 else c

/-- ASCII lowercase of one code point (Python `str.lower`). -/
def lowerN (c : Nat) : Nat := if 65 ≤ c ∧ c ≤ 90 then c + 32 else c

/-- Python `str.upper()`. -/
def pyUpper (s : PyStr) : PyStr := s.map upperN

/-- Python `str.lower()`. -/
def pyLower (s : PyStr) : PyStr := s.map lowerN

/-- Python whitespace (`str.strip` default set, ASCII part). -/
def isWsN (c : Nat) : Bool := c = 32 || c = 9 || c = 10 || c = 13 || c = 11 || c = 12

/-- Python `str.strip()`: drop leading and trailing whitespace. -/
def pyStrip (s : PyStr) : PyStr :=
  ((s.dropWhile isWsN).reverse.dropWhile isWsN).reverse

/-- Python `str.endswith('PM')` (on an upper-cased string). -/
def endsWithPM (s : PyStr) : Bool :=
  match s.reverse with
  | c1 :: c2 :: _ => decide (c1 = 77) && decide (c2 = 80)
  | _ => false

/-- Python `str.replace(xy, '')` for a two-character pattern `xy`:
remove every (left-to-right, non-overlapping) occurrence of the two
code points `x`, `y`. -/
def removeSub2 (x y : Nat) : PyStr → PyStr
  | [] => []
  | [c] => [c]
  | c1 :: c2 :: rest =>
    if c1 = x ∧ c2 = y then removeSub2 x y rest
    else c1 :: removeSub2 x y (c2 :: rest)

/-- Python `str.split(':')`. -/
def splitColon : PyStr → List PyStr
  | [] => [[]]
  | c :: rest =>
    if c = 58 then [] :: splitColon rest
    else
      match splitColon rest with
      | [] => [[c]]
      | q :: qs => (c :: q) :: qs

/-- Is `c` an ASCII digit code point? -/
def isDigitN (c : Nat) : Bool := 48 ≤ c && c ≤ 57

/-- Decimal value of an (assumed all-digit) code point list, most
significant first. -/
def digitsVal (l : PyStr) : Int :=
  l.foldl (fun acc c => acc * 10 + ((c : Int) - 48)) 0

/-- Decimal value of a nonempty all-digit code point list
(most significant first); `none` otherwise. -/
def digitsToInt (l : PyStr) : Option Int :=
  if l ≠ [] ∧ l.all isDigitN then some (digitsVal l) else none

/-- Python `int(s)`: surrounding whitespace tolerated, optional sign, then
a nonempty digit run.  (Python additionally allows `_` digit separators,
never exercised here.)  `none` models the `ValueError` Python raises. -/
def pyInt (s : PyStr) : Option Int :=
  match pyStrip s with
  | [] => none
  | c :: rest =>
    if c = 43 then digitsToInt rest
    else if c = 45 then (digitsToInt rest).map (fun v => -v)
    else digitsToInt (c :: rest)

/-- Python `pat in s` (substring containment). -/
def containsSub (pat : PyStr) : PyStr → Bool
  | [] => pat = []
  | c :: rest => pat.isPrefixOf (c :: rest) || containsSub pat rest

/-! ## Time utilities (src/pdf_parser.py lines 253-286) -/

/-- `time_to_minutes` (src/pdf_parser.py:253).  Converts a clock string
such as `9:00AM` to minutes since midnight.  `none` models the
`ValueError` that Python's `int()` raises on a non-numeric segment. -/
def time_to_minutes (s : PyStr) : Option Int :=
  let t := pyStrip (pyUpper s)
  if t = pys "NOON" then some 720
  else
    let isPm := endsWithPM t
    let t2 := removeSub2 80 77 (removeSub2 65 77 t)
    match splitColon t2 with
    | [] => none
    | p0 :: rest =>
      match pyInt p0 with
      | none => none
      | some h =>
        let mm : Option Int :=
          match rest with
          | [] => some 0
          | p1 :: _ => pyInt p1
        match mm with
        | none => none
        | some m =>
          let h2 : Int :=
            if isPm ∧ h ≠ 12 then h + 12
            else if ¬isPm ∧ h = 12 then 0
            else h
          some (h2 * 60 + m)

/-- Fuel-driven helper for `natDigits` (structural recursion so that the
kernel can evaluate it; the fuel `n + 1` always suffices). -/
def natDigitsAux : Nat → Nat → PyStr
  | 0, _ => []
  | f + 1, n =>
    if n < 10 then [48 + n]
    else natDigitsAux f (n / 10) ++ [48 + n % 10]

/-- Decimal digit code points of `n`, most significant first
(rendering of a Python f-string `{n}`). -/
def natDigits (n : Nat) : PyStr := natDigitsAux (n + 1) n

/-- Two-digit zero-padded rendering (Python `f"{n:02d}"` for `n < 100`;
only ever applied to `n % 60` here). -/
def pad2 (n : Nat) : PyStr := [48 + n / 10, 48 + n % 10]

/-- `minutes_to_time` (src/pdf_parser.py:274): minutes since midnight to
a clock string such as `9:00AM`. -/
def minutes_to_time (m : Nat) : PyStr :=
  let hours := m / 60
  let mins := m % 60
  let isPm := decide (12 ≤ hours)
  let h := if 12 < hours then hours - 12 else if hours = 0 then 12 else hours
  natDigits h ++ 58 :: pad2 mins ++ (if isPm then [80, 77] else [65, 77])

/-- The hour adjustment applied by `time_to_minutes` (12-hour clock to
24-hour hour), stated as a function for the evaluation lemmas. -/
def merAdjust (h : Int) (pm : Bool) : Int :=
  if pm ∧ h ≠ 12 then h + 12
  else if ¬pm ∧ h = 12 then 0
  else h

/-- Minutes value of a clock string with malformed input defaulted.
Python raises instead of defaulting; every claim below is stated on, or
witnessed with, parseable times, where the default is never reached. -/
def timeVal (s : PyStr) : Int := (time_to_minutes s).getD 0

/-! ## Data model -/

/-- One extracted activity record (a Python dict with keys `start`, `end`,
`activity`, `pool_area`; a missing key reads as the empty string). -/
structure Activity where
  start : PyStr
  end_ : PyStr
  activity : PyStr
  pool_area : PyStr
deriving DecidableEq

/-- One derived swim slot, as built by the secret-swim calculators
(a Python dict with keys `pool`, `weekday`, `start`, `end`, `note`). -/
structure SwimSlot where
  pool : String
  weekday : String
  start : PyStr
  end_ : PyStr
  note : String
deriving DecidableEq

/-- A weekly schedule: a Python dict from weekday name to record list,
modelled as an association list (Python dicts preserve insertion order
and have unique keys). -/
abbrev Weekly (α : Type) := List (String × List α)

/-- Dict lookup: `d[k]` as an `Option` (`none` = key absent). -/
def dictFind (d : Weekly α) (k : String) : Option (List α) :=
  (d.find? (fun p => p.1 = k)).map (fun p => p.2)

/-- Python `d.get(k, [])`. -/
def dictGet (d : Weekly α) (k : String) : List α :=
  (dictFind d k).getD []

/-- The weekday key order used by the secret-swim calculators and the
assembler (src/pdf_parser.py:1110 and the dict literals at 340, 385). -/
def weekDays7 : List String :=
  ["Saturday", "Sunday", "Monday", "Tuesday", "Wednesday", "Thursday", "Friday"]

/-! ## Consensus extractor (src/pdf_parser.py lines 539-711) -/

/-- `normalize_time` (src/pdf_parser.py:539): upper-case, strip, and add a
leading zero when the hour is a single digit.  (On strings too short for
its index probes — e.g. the empty string — Python raises IndexError;
those shapes are outside every claim and the model leaves them
unchanged.) -/
def normalize_time (s : PyStr) : PyStr :=
  let t := pyStrip (pyUpper s)
  match t with
  | c0 :: 58 :: rest => if isDigitN c0 then 48 :: c0 :: 58 :: rest else t
  | _ => t

/-- `get_time_slots` (src/pdf_parser.py:549): the set of normalized
`(start, end)` pairs of an attempt, as a first-occurrence-ordered
duplicate-free list (Python uses a `set`; equality of sets is
extensional, see `setEq`). -/
def get_time_slots (acts : List Activity) : List (PyStr × PyStr) :=
  acts.foldl
    (fun slots a =>
      let st := normalize_time a.start
      let en := normalize_time a.end_
      if st ≠ [] ∧ en ≠ [] then
        if (st, en) ∈ slots then slots else slots ++ [(st, en)]
      else slots)
    []

/-- Extensional equality of slot collections (Python `set ==`). -/
def setEq (l1 l2 : List (PyStr × PyStr)) : Bool :=
  l1.all (fun x => x ∈ l2) && l2.all (fun x => x ∈ l1)

/-- `pick_best_of_three` (src/pdf_parser.py:694).  `some e` means the
function returns extraction `e` directly; `none` marks the
all-three-differ branch, where the source issues a consolidation query
to the oracle (not modelled). -/
def pick_best_of_three (e1 e2 e3 : List Activity) : Option (List Activity) :=
  let s1 := get_time_slots e1
  let s2 := get_time_slots e2
  let s3 := get_time_slots e3
  if setEq s1 s2 then some e1
  else if setEq s1 s3 then some e1
  else if setEq s2 s3 then some e2
  else none

/-! ## Conflict predicate and overlap (src/pdf_parser.py lines 289-330) -/

/-- After a `(`: at least one digit followed by `)` (regex `\(\d+\)`
continuation), scanning the digit run. -/
def laneDigits : PyStr → Bool
  | [] => false
  | 41 :: _ => true
  | c :: rest => isDigitN c && laneDigits rest

/-- Does the regex `\(\d+\)` match anywhere in the string
(`re.search` at src/pdf_parser.py:312)? -/
def hasLaneCount : PyStr → Bool
  | [] => false
  | 40 :: rest =>
    (match rest with
     | c :: rest2 => isDigitN c && laneDigits rest2
     | [] => false)
    || hasLaneCount rest
  | _ :: rest => hasLaneCount rest

/-- `conflicts_with_small_pool` (src/pdf_parser.py:289). -/
def conflicts_with_small_pool (a : Activity) : Bool :=
  let pa := pyLower (pyStrip a.pool_area)
  if containsSub (pys "small pool") pa then true
  else if containsSub (pys "main pool") pa then false
  else if hasLaneCount pa then false
  else if pa = [] then true
  else false

/-- `times_overlap` (src/pdf_parser.py:323). -/
def times_overlap (a1 a2 : Activity) : Bool :=
  timeVal a1.start < timeVal a2.end_ && timeVal a2.start < timeVal a1.end_

/-! ## Availability deriver (src/pdf_parser.py lines 333-424) -/

/-- Is the record a lap-swim record (`'lap swim' in activity.lower()`)? -/
def isLapSwim (a : Activity) : Bool :=
  containsSub (pys "lap swim") (pyLower a.activity)

/-- The derived slot the Balboa calculator appends for a lap-swim
record. -/
def balboaSlot (pool day : String) (lap : Activity) : SwimSlot :=
  { pool := pool, weekday := day, start := lap.start, end_ := lap.end_,
    note := "Parent Child Swim on Steps" }

/-- One day of `calculate_balboa_secret_swim`: every lap-swim record with
no overlapping non-lap-swim record yields its whole interval.  (The
source's inner loop skips every record whose activity name contains
`'lap swim'`, src/pdf_parser.py:357.) -/
def balboaDay (pool day : String) (acts : List Activity) : List SwimSlot :=
  (acts.filter isLapSwim).filterMap
    (fun lap =>
      if acts.any (fun other => !isLapSwim other && times_overlap lap other) then none
      else some (balboaSlot pool day lap))

/-- `calculate_balboa_secret_swim` (src/pdf_parser.py:333). -/
def calculate_balboa_secret_swim (raw : Weekly Activity) (pool : String) :
    Weekly SwimSlot :=
  weekDays7.map (fun day => (day, balboaDay pool day (dictGet raw day)))

/-- The derived slot the Garfield calculator appends. -/
def garfieldSlot (pool day : String) (a : Activity) : SwimSlot :=
  { pool := pool, weekday := day, start := a.start, end_ := a.end_,
    note := "Parent Child Swim in Small Pool" }

/-- Loop body of one Garfield day: walk the activities keeping the set of
already-emitted `(start, end)` pairs (`added_slots`). -/
def garfieldGo (pool day : String) (acts : List Activity) :
    List Activity → List (PyStr × PyStr) → List SwimSlot
  | [], _ => []
  | a :: rest, seen =>
    if conflicts_with_small_pool a then garfieldGo pool day acts rest seen
    else if acts.any (fun other =>
        decide (other ≠ a) && conflicts_with_small_pool other && times_overlap a other) then
      garfieldGo pool day acts rest seen
    else if (a.start, a.end_) ∈ seen then garfieldGo pool day acts rest seen
    else garfieldSlot pool day a :: garfieldGo pool day acts rest ((a.start, a.end_) :: seen)

/-- One day of `calculate_garfield_secret_swim` (src/pdf_parser.py:390-422). -/
def garfieldDay (pool day : String) (acts : List Activity) : List SwimSlot :=
  garfieldGo pool day acts acts []

/-- `calculate_garfield_secret_swim` (src/pdf_parser.py:377). -/
def calculate_garfield_secret_swim (raw : Weekly Activity) (pool : String) :
    Weekly SwimSlot :=
  weekDays7.map (fun day => (day, garfieldDay pool day (dictGet raw day)))

/-! ## Schedule assembler (src/pdf_parser.py lines 1104-1125) -/

/-- Sort key of `combine_and_sort_schedules`
(`time_to_minutes(slot['start'])`). -/
def slotKey (s : SwimSlot) : Int := timeVal s.start

/-- Insert into an already-sorted-by-key list, after every element of
less-or-equal key (the insertion step of a stable sort). -/
def insertKey [LinearOrder β] (key : α → β) (a : α) : List α → List α
  | [] => [a]
  | b :: l => if key a ≤ key b then a :: b :: l else b :: insertKey key a l

/-- Stable sort ascending by `key` — the model of Python's stable
`list.sort(key=...)` (any two stable sorts agree extensionally). -/
def pySortByKey [LinearOrder β] (key : α → β) : List α → List α
  | [] => []
  | a :: l => insertKey key a (pySortByKey key l)

/-- `combine_and_sort_schedules` (src/pdf_parser.py:1104). -/
def combine_and_sort_schedules (family secret : Weekly SwimSlot) :
    Weekly SwimSlot :=
  weekDays7.map
    (fun day => (day, pySortByKey slotKey (dictGet family day ++ dictGet secret day)))

/-! ## Phantom detection (src/pdf_parser.py lines 1132-1359) -/

/-- `WEEKDAY_ORDER` (src/pdf_parser.py:1132). -/
def WEEKDAY_ORDER : List String :=
  ["Sunday", "Monday", "Tuesday", "Wednesday", "Thursday", "Friday", "Saturday"]

/-- `get_adjacent_days` (src/pdf_parser.py:1135).  (Python raises
ValueError for a day outside `WEEKDAY_ORDER`; callers only pass valid
days, and the model returns `[]` there.) -/
def get_adjacent_days (day : String) : List String :=
  match WEEKDAY_ORDER.indexOf? day with
  | none => []
  | some idx =>
    (if 0 < idx then [WEEKDAY_ORDER.getD (idx - 1) ""] else []) ++
    (if idx < WEEKDAY_ORDER.length - 1 then [WEEKDAY_ORDER.getD (idx + 1) ""] else [])

/-- The case-insensitive comparison key of the raw schedule format
(src/pdf_parser.py:1163). -/
def slotKeyRaw (a : Activity) : PyStr × PyStr × PyStr × PyStr :=
  (pyUpper a.start, pyUpper a.end_, pyUpper a.activity, pyUpper a.pool_area)

/-- `find_suspicious_duplicates` for the raw schedule format
(src/pdf_parser.py:1146, `use_raw_format=True`; the family-swim format
differs only in the key and is not needed by the claims). -/
def find_suspicious_duplicates (sched : Weekly Activity) :
    List (String × Activity × String) :=
  sched.flatMap
    (fun p =>
      if p.1 ∈ WEEKDAY_ORDER then
        p.2.flatMap
          (fun slot =>
            (get_adjacent_days p.1).filterMap
              (fun adj =>
                if (dictGet sched adj).any (fun a2 => slotKeyRaw a2 = slotKeyRaw slot)
                then some (p.1, slot, adj) else none))
      else [])

/-- The `phantoms_to_remove` list of `remove_phantom_entries`
(src/pdf_parser.py:1300-1323): the suspicious entries whose oracle
re-verification came back negative, keyed by flagged day.  (The source's
per-key verification cache only avoids repeated API calls and is
semantically invisible for a pure `verify`.) -/
def phantomsOf (sched : Weekly Activity) (verify : String → Activity → Bool) :
    List (String × Activity) :=
  (find_suspicious_duplicates sched).filterMap
    (fun e => if verify e.1 e.2.1 then none else some (e.1, e.2.1))

/-- `remove_phantom_entries` for the raw schedule format
(src/pdf_parser.py:1273).  The oracle re-verification call
(`verify_slot_exists`) is the explicit parameter `verify`. -/
def remove_phantom_entries (sched : Weekly Activity)
    (verify : String → Activity → Bool) : Weekly Activity :=
  if find_suspicious_duplicates sched = [] then sched
  else if phantomsOf sched verify = [] then sched
  else
    sched.map
      (fun p =>
        (p.1, p.2.filter
          (fun slot => !((phantomsOf sched verify).any
            (fun ph => ph.1 = p.1 ∧ slotKeyRaw ph.2 = slotKeyRaw slot)))))

/-! ## Definitions taken from the spec's words

`canonShape?` states §4.1's canonical clock-string form and `specParse`
states §4.1's accepted input shapes; they are the reference points the
round-trip and acceptance claims compare the source against. -/

/-- Minutes value of hour-of-12 `h12`, minutes `mm`, meridiem `pm`. -/
def canonVal (h12 mm : Nat) (pm : Bool) : Nat :=
  (if pm then (if h12 = 12 then 12 else h12 + 12)
   else (if h12 = 12 then 0 else h12)) * 60 + mm

/-- The canonical clock-string shape of §4.1 — hour `1..12` with no
leading zero, a colon, two minute digits in `00..59`, upper-case
`AM`/`PM` — and its minutes value. -/
def canonShape? : PyStr → Option Nat
  | [h, c1, m1, m2, p, c2] =>
    if 49 ≤ h ∧ h ≤ 57 ∧ c1 = 58 ∧ 48 ≤ m1 ∧ m1 ≤ 53 ∧ 48 ≤ m2 ∧ m2 ≤ 57
        ∧ (p = 65 ∨ p = 80) ∧ c2 = 77
    then some (canonVal (h - 48) (10 * (m1 - 48) + (m2 - 48)) (decide (p = 80)))
    else none
  | [h1, h2, c1, m1, m2, p, c2] =>
    if h1 = 49 ∧ 48 ≤ h2 ∧ h2 ≤ 50 ∧ c1 = 58 ∧ 48 ≤ m1 ∧ m1 ≤ 53 ∧ 48 ≤ m2 ∧ m2 ≤ 57
        ∧ (p = 65 ∨ p = 80) ∧ c2 = 77
    then some (canonVal (10 + (h2 - 48)) (10 * (m1 - 48) + (m2 - 48)) (decide (p = 80)))
    else none
  | _ => none

/-- Modelled from the spec: the meridiem tail of §4.1's accepted shape —
optional internal whitespace, then `AM` or `PM` ending the string
(already upper-cased).  Returns `some true` for PM. -/
def specMeridiem (s : PyStr) : Option Bool :=
  match s.dropWhile isWsN with
  | [c1, c2] =>
    if c1 = 65 ∧ c2 = 77 then some false
    else if c1 = 80 ∧ c2 = 77 then some true
    else none
  | _ => none

/-- Hour-of-12 to signed minutes-basis hour, from the spec's wording
(12 is noon for PM and midnight for AM). -/
def specAdjust (h : Nat) (pm : Bool) : Int :=
  if pm then (if h = 12 then 12 else (h : Int) + 12)
  else (if h = 12 then 0 else (h : Int))

/-- Modelled from the spec: minute digits and meridiem after the colon. -/
def specAfterColon (h : Nat) : PyStr → Option Int
  | m1 :: m2 :: rest =>
    if isDigitN m1 ∧ isDigitN m2 then
      match specMeridiem rest with
      | none => none
      | some pm =>
        some (specAdjust h pm * 60 + (10 * ((m1 : Int) - 48) + ((m2 : Int) - 48)))
    else none
  | _ => none

/-- Hour digits (one or two) before the colon, from the spec's `"H:MM"` /
`"HH:MM"` wording. -/
def specHourTail (h : Nat) : PyStr → Option Int
  | [] => none
  | c :: rest =>
    if c = 58 then specAfterColon h rest
    else if isDigitN c then
      match rest with
      | [] => none
      | c2 :: rest2 =>
        if c2 = 58 then specAfterColon (10 * h + (c - 48)) rest2 else none
    else none

/-- Modelled from the spec (§4.1): `parseClockTime` accepts `"H:MM"` or
`"HH:MM"` followed (after optional internal whitespace) by `AM`/`PM`,
case-insensitively and ignoring surrounding whitespace, plus the literal
`"NOON"` (= 720); everything else is rejected. -/
def specParse (s : PyStr) : Option Int :=
  let t := pyStrip (pyUpper s)
  if t = pys "NOON" then some 720
  else
    match t with
    | [] => none
    | d1 :: rest => if isDigitN d1 then specHourTail (d1 - 48) rest else none

/-! ## Interval subtraction (src/test_pdf_scraping.py lines 204-220)

The gap sweep inside `add_secret_swim_times`: for one lap-swim window the
source collects the `(family_start, family_end)` minute pairs of the
overlapping family slots, sorts them (`conflicts.sort()`, Python's
lexicographic tuple order) and sweeps a cursor across the window,
emitting the uncovered gaps (`available_ranges`).  This is the
`subtractConflicts(candidate, conflicts)` operation of spec §4.2. -/

/-- Python tuple comparison `a <= b` on `(start, end)` minute pairs. -/
def pairLe (a b : Nat × Nat) : Bool :=
  a.1 < b.1 || (a.1 = b.1 && a.2 ≤ b.2)

/-- Insertion step of the stable lexicographic `list.sort()`. -/
def insertPair (a : Nat × Nat) : List (Nat × Nat) → List (Nat × Nat)
  | [] => [a]
  | b :: l => if pairLe a b then a :: b :: l else b :: insertPair a l

/-- `conflicts.sort()` (src/test_pdf_scraping.py:206). -/
def sortPairs : List (Nat × Nat) → List (Nat × Nat)
  | [] => []
  | a :: l => insertPair a (sortPairs l)

/-- The cursor sweep of src/test_pdf_scraping.py:210-220: emit
`(current_start, conflict_start)` when `current_start < conflict_start`,
advance `current_start` to `max current_start conflict_end`, then emit
the trailing `(current_start, lap_end)` if any.  The source has no
validity guard — it never checks `conflict_end > conflict_start` (the
spec's `InvalidIntervalError` exists nowhere in the code). -/
def sweepGaps (cur lap_end : Nat) : List (Nat × Nat) → List (Nat × Nat)
  | [] => if cur < lap_end then [(cur, lap_end)] else []
  | c :: cs =>
    if cur < c.1 then (cur, c.1) :: sweepGaps (max cur c.2) lap_end cs
    else sweepGaps (max cur c.2) lap_end cs

/-- `subtractConflicts` (spec §4.2) as the source implements it at
src/test_pdf_scraping.py:204-220: sort the conflict pairs, then sweep.
(The source reaches the sweep only with a nonempty conflict list — the
`if not conflicts` branch at line 196 emits the whole window directly,
which coincides with sweeping the empty list over a nonempty window.) -/
def subtractConflicts (cand : Nat × Nat) (conflicts : List (Nat × Nat)) :
    List (Nat × Nat) :=
  sweepGaps cand.1 cand.2 (sortPairs conflicts)

example : time_to_minutes (pys "9:00AM") = some 540 := by decide
example : time_to_minutes (pys "12:30PM") = some 750 := by decide
example : time_to_minutes (pys "12:05AM") = some 5 := by decide
example : time_to_minutes (pys "noon") = some 720 := by decide
example : time_to_minutes (pys "9AM") = some 540 := by decide
example : time_to_minutes (pys "ABC") = none := by decide
example : time_to_minutes (pys " 9:00 pm ") = some 1260 := by decide
example : minutes_to_time 540 = pys "9:00AM" := by decide
example : minutes_to_time 0 = pys "12:00AM" := by decide
example : minutes_to_time 750 = pys "12:30PM" := by decide

/-! ## Sample records (used by witnesses and counterexamples) -/

/-- A lap-swim record 9:00AM-10:00AM in four lanes. -/
def lapA : Activity :=
  { start := pys "9:00AM", end_ := pys "10:00AM",
    activity := pys "Lap Swim", pool_area := pys "(4)" }

/-- A second lap-swim record 9:30AM-10:30AM, unlabeled area. -/
def lapB : Activity :=
  { start := pys "9:30AM", end_ := pys "10:30AM",
    activity := pys "Lap Swim", pool_area := pys "" }

/-- A non-lap record 9:30AM-9:45AM, unlabeled area. -/
def famC : Activity :=
  { start := pys "9:30AM", end_ := pys "9:45AM",
    activity := pys "Family Swim", pool_area := pys "" }

/-- A small-pool record 6:00PM-7:00PM. -/
def lessD : Activity :=
  { start := pys "6:00PM", end_ := pys "7:00PM",
    activity := pys "Swim Lessons", pool_area := pys "Small Pool" }

/-- A primary slot starting 9:00AM. -/
def tieP : SwimSlot :=
  { pool := "Balboa Pool", weekday := "Monday", start := pys "9:00AM",
    end_ := pys "10:00AM", note := "Family Swim" }

/-- A derived slot also starting 9:00AM. -/
def tieD : SwimSlot :=
  { pool := "Balboa Pool", weekday := "Monday", start := pys "9:00AM",
    end_ := pys "9:30AM", note := "Parent Child Swim on Steps" }

/-! ## Stable-sort lemmas -/

theorem insertKey_perm [LinearOrder β] (key : α → β) (a : α) (l : List α) :
    List.Perm (insertKey key a l) (a :: l) := by
  induction l with
  | nil => simp [insertKey]
  | cons b l ih =>
    simp only [insertKey]
    split
    · exact List.Perm.refl _
    · exact (List.Perm.cons b ih).trans (List.Perm.swap a b l)

theorem mem_insertKey [LinearOrder β] (key : α → β) (a x : α) (l : List α) :
    x ∈ insertKey key a l ↔ x = a ∨ x ∈ l := by
  rw [(insertKey_perm key a l).mem_iff]
  simp

theorem pairwise_insertKey [LinearOrder β] (key : α → β) (a : α) (l : List α)
    (h : l.Pairwise (fun x y => key x ≤ key y)) :
    (insertKey key a l).Pairwise (fun x y => key x ≤ key y) := by
  induction l with
  | nil => simp [insertKey]
  | cons b l ih =>
    rcases List.pairwise_cons.1 h with ⟨hb, hl⟩
    simp only [insertKey]
    by_cases hab : key a ≤ key b
    · simp only [if_pos hab]
      refine List.pairwise_cons.2 ⟨?_, h⟩
      intro x hx
      rcases List.mem_cons.1 hx with rfl | hx
      · exact hab
      · exact le_trans hab (hb x hx)
    · simp only [if_neg hab]
      refine List.pairwise_cons.2 ⟨?_, ih hl⟩
      intro x hx
      rcases (mem_insertKey key a x l).1 hx with rfl | hx
      · exact le_of_lt (not_le.1 hab)
      · exact hb x hx

theorem filter_insertKey [LinearOrder β] (key : α → β) (a : α) (l : List α) (k : β) :
    (insertKey key a l).filter (fun x => key x = k) =
      if key a = k then a :: l.filter (fun x => key x = k)
      else l.filter (fun x => key x = k) := by
  induction l with
  | nil =>
    by_cases hak : key a = k <;> simp [insertKey, List.filter_cons, hak]
  | cons b l ih =>
    simp only [insertKey]
    by_cases hab : key a ≤ key b
    · simp only [if_pos hab, List.filter_cons]
      by_cases hak : key a = k <;> simp [hak]
    · have hba : key b < key a := not_le.1 hab
      simp only [if_neg hab, List.filter_cons, ih]
      by_cases hak : key a = k
      · have hbk : ¬(key b = k) := by
          intro hbk
          exact absurd (hbk.trans hak.symm) (ne_of_lt hba)
        simp [hak, hbk]
      · by_cases hbk : key b = k <;> simp [hak, hbk]

theorem pySortByKey_perm [LinearOrder β] (key : α → β) (l : List α) :
    List.Perm (pySortByKey key l) l := by
  induction l with
  | nil => simp [pySortByKey]
  | cons a l ih =>
    exact (insertKey_perm key a (pySortByKey key l)).trans (List.Perm.cons a ih)

theorem pySortByKey_pairwise [LinearOrder β] (key : α → β) (l : List α) :
    (pySortByKey key l).Pairwise (fun x y => key x ≤ key y) := by
  induction l with
  | nil => simp [pySortByKey]
  | cons a l ih => exact pairwise_insertKey key a _ ih

theorem pySortByKey_filter [LinearOrder β] (key : α → β) (l : List α) (k : β) :
    (pySortByKey key l).filter (fun x => key x = k) =
      l.filter (fun x => key x = k) := by
  induction l with
  | nil => rfl
  | cons a l ih =>
    simp only [pySortByKey, filter_insertKey, ih, List.filter_cons]
    by_cases hak : key a = k <;> simp [hak]

/-! ## Association-list lemmas -/

theorem dictFind_cons (p : String × List α) (ps : Weekly α) (day : String) :
    dictFind (p :: ps) day = if p.1 = day then some p.2 else dictFind ps day := by
  by_cases h : p.1 = day
  · rw [dictFind, List.find?_cons_of_pos _ (by simp [h])]
    simp [h]
  · rw [dictFind, List.find?_cons_of_neg _ (by simp [h])]
    simp [h, dictFind]

theorem dictFind_mapKeys (days : List String) (f : String → List α) (day : String) :
    dictFind (days.map (fun d => (d, f d))) day =
      if day ∈ days then some (f day) else none := by
  induction days with
  | nil => simp [dictFind]
  | cons d ds ih =>
    rw [List.map_cons, dictFind_cons]
    by_cases h : d = day
    · subst h
      simp
    · have hne : ¬ day = d := fun hh => h hh.symm
      simp [h, ih, List.mem_cons, hne]

theorem dictFind_mapVals (sched : Weekly α) (g : String → List α → List β) (day : String) :
    dictFind (sched.map (fun p => (p.1, g p.1 p.2))) day =
      (dictFind sched day).map (g day) := by
  induction sched with
  | nil => simp [dictFind]
  | cons p ps ih =>
    rw [List.map_cons, dictFind_cons, dictFind_cons]
    by_cases h : p.1 = day
    · simp [h]
    · simp [h, ih]

/-- A record with the same (normalized) times as `lapA` but different text
fields ("9:00am" normalizes to "09:00AM" just like "9:00AM"). -/
def lapA2 : Activity :=
  { start := pys "9:00am", end_ := pys "10:00am",
    activity := pys "LAP SWIM (4 lanes)", pool_area := pys "" }

/-- **C1.** Consensus arbiter `pick_best_of_three`: whenever at least two
of the three extraction attempts have equal slot-sets, the matching
attempt of lowest index is returned verbatim and the
arbitration/consolidation oracle is not queried (`some e` = attempt `e`
returned directly, `none` = the consolidation branch); in particular
slot-sets {A},{A},{B} with A ≠ B return the first attempt. -/
theorem pick_best_of_three_majority (e1 e2 e3 : List Activity) :
    (setEq (get_time_slots e1) (get_time_slots e2) = true →
      pick_best_of_three e1 e2 e3 = some e1)
    ∧ (setEq (get_time_slots e1) (get_time_slots e3) = true →
      pick_best_of_three e1 e2 e3 = some e1)
    ∧ (setEq (get_time_slots e1) (get_time_slots e2) = false →
      setEq (get_time_slots e1) (get_time_slots e3) = false →
      setEq (get_time_slots e2) (get_time_slots e3) = true →
      pick_best_of_three e1 e2 e3 = some e2) := by
  refine ⟨?_, ?_, ?_⟩
  · intro h
    simp [pick_best_of_three, h]
  · intro h
    cases h12 : setEq (get_time_slots e1) (get_time_slots e2) <;>
      simp [pick_best_of_three, h, h12]
  · intro h12 h13 h23
    simp [pick_best_of_three, h12, h13, h23]

/-- Witness for C1: {A},{A},{B} returns attempt 1; {B},{A},{A} returns
attempt 2 (the lowest-index member of the matching pair). -/
theorem pick_best_of_three_majority_witness :
    pick_best_of_three [lapA] [lapA2] [famC] = some [lapA]
    ∧ pick_best_of_three [famC] [lapA] [lapA2] = some [lapA] :=
  ⟨(pick_best_of_three_majority [lapA] [lapA2] [famC]).1 (by decide),
   (pick_best_of_three_majority [famC] [lapA] [lapA2]).2.2
     (by decide) (by decide) (by decide)⟩

/-- **C8.** The assembler `combine_and_sort_schedules` produces, for every
weekday, the concatenation of the primary records and then the derived
records, stable-sorted ascending by `time_to_minutes` of the start:
sorted pairwise, a permutation of the concatenation, and — stability —
the records of any fixed start-time key keep their concatenation order;
in particular a primary and a derived record sharing a start time appear
primary-first (the concrete `tieP`/`tieD` conjunct). -/
theorem combine_and_sort_stable :
    (∀ (fam sec : Weekly SwimSlot) (day : String), day ∈ weekDays7 →
      dictFind (combine_and_sort_schedules fam sec) day
          = some (pySortByKey slotKey (dictGet fam day ++ dictGet sec day))
        ∧ (pySortByKey slotKey (dictGet fam day ++ dictGet sec day)).Pairwise
            (fun x y => slotKey x ≤ slotKey y)
        ∧ List.Perm (pySortByKey slotKey (dictGet fam day ++ dictGet sec day))
            (dictGet fam day ++ dictGet sec day)
        ∧ ∀ k : Int,
            (pySortByKey slotKey (dictGet fam day ++ dictGet sec day)).filter
                (fun s => slotKey s = k)
              = (dictGet fam day ++ dictGet sec day).filter (fun s => slotKey s = k))
    ∧ dictFind (combine_and_sort_schedules [("Monday", [tieP])] [("Monday", [tieD])])
        "Monday" = some [tieP, tieD] := by
  constructor
  · intro fam sec day hday
    refine ⟨?_, pySortByKey_pairwise _ _, pySortByKey_perm _ _,
      fun k => pySortByKey_filter _ _ _⟩
    rw [combine_and_sort_schedules, dictFind_mapKeys, if_pos hday]
  · decide

/-- Witness for C8 at a concrete day and schedules. -/
theorem combine_and_sort_stable_witness :
    dictFind (combine_and_sort_schedules [("Monday", [tieD])] [("Monday", [tieP])])
        "Monday"
      = some (pySortByKey slotKey
          (dictGet [("Monday", [tieD])] "Monday"
            ++ dictGet [("Monday", [tieP])] "Monday")) :=
  (combine_and_sort_stable.1 [("Monday", [tieD])] [("Monday", [tieP])]
    "Monday" (by decide)).1

/-- **C10.** The assembler's output has exactly the seven weekday names as
its key set for every pair of inputs; a weekday absent from both inputs
maps to the empty list, and entries stored under any non-weekday key are
dropped (no such key exists in the output). -/
theorem combine_and_sort_keys (fam sec : Weekly SwimSlot) :
    (combine_and_sort_schedules fam sec).map Prod.fst = weekDays7
    ∧ (∀ day, day ∉ weekDays7 →
        dictFind (combine_and_sort_schedules fam sec) day = none)
    ∧ (∀ day, day ∈ weekDays7 → dictFind fam day = none → dictFind sec day = none →
        dictFind (combine_and_sort_schedules fam sec) day = some []) := by
  refine ⟨?_, ?_, ?_⟩
  · rfl
  · intro day hday
    rw [combine_and_sort_schedules, dictFind_mapKeys, if_neg hday]
  · intro day hday hf hs
    rw [combine_and_sort_schedules, dictFind_mapKeys, if_pos hday]
    simp [dictGet, hf, hs, pySortByKey]

/-- Witness for C10: a non-weekday key is dropped and an absent weekday
maps to the empty list. -/
theorem combine_and_sort_keys_witness :
    (combine_and_sort_schedules [("Funday", [tieP])] []).map Prod.fst = weekDays7
    ∧ dictFind (combine_and_sort_schedules [("Funday", [tieP])] []) "Funday" = none
    ∧ dictFind (combine_and_sort_schedules [("Funday", [tieP])] []) "Monday"
        = some [] :=
  ⟨(combine_and_sort_keys [("Funday", [tieP])] []).1,
   (combine_and_sort_keys [("Funday", [tieP])] []).2.1 "Funday" (by decide),
   (combine_and_sort_keys [("Funday", [tieP])] []).2.2 "Monday"
     (by decide) (by decide) (by decide)⟩

/-! ## C4: the interval-subtraction sweep -/

theorem insertPair_perm (a : Nat × Nat) (l : List (Nat × Nat)) :
    List.Perm (insertPair a l) (a :: l) := by
  induction l with
  | nil => simp [insertPair]
  | cons b l ih =>
    simp only [insertPair]
    split
    · exact List.Perm.refl _
    · exact (List.Perm.cons b ih).trans (List.Perm.swap a b l)

theorem sortPairs_perm (l : List (Nat × Nat)) : List.Perm (sortPairs l) l := by
  induction l with
  | nil => simp [sortPairs]
  | cons a l ih =>
    exact (insertPair_perm a (sortPairs l)).trans (List.Perm.cons a ih)

theorem sweepGaps_props (cs : List (Nat × Nat)) (cur hi : Nat)
    (hv : ∀ c ∈ cs, c.1 < c.2) :
    (sweepGaps cur hi cs).Pairwise (fun i j => i.2 ≤ j.1)
    ∧ ∀ i ∈ sweepGaps cur hi cs, cur ≤ i.1 ∧ i.1 < i.2 := by
  induction cs generalizing cur with
  | nil =>
    constructor
    · by_cases h : cur < hi <;> simp [sweepGaps, h]
    · intro i hmem
      by_cases h : cur < hi <;> simp [sweepGaps, h] at hmem
      subst hmem
      exact ⟨le_refl _, h⟩
  | cons c cs ih =>
    have hc : c.1 < c.2 := hv c (List.mem_cons_self c cs)
    have hv2 : ∀ x ∈ cs, x.1 < x.2 := fun x hx => hv x (List.mem_cons_of_mem _ hx)
    obtain ⟨ihp, ihm⟩ := ih (max cur c.2) hv2
    by_cases h : cur < c.1
    · simp only [sweepGaps, if_pos h]
      constructor
      · refine List.pairwise_cons.2 ⟨?_, ihp⟩
        intro j hj
        calc ((cur, c.1) : Nat × Nat).2 = c.1 := rfl
          _ ≤ c.2 := le_of_lt hc
          _ ≤ max cur c.2 := le_max_right _ _
          _ ≤ j.1 := (ihm j hj).1
      · intro i hmem
        rcases List.mem_cons.1 hmem with rfl | hmem
        · exact ⟨le_refl _, h⟩
        · exact ⟨le_trans (le_max_left _ _) (ihm i hmem).1, (ihm i hmem).2⟩
    · simp only [sweepGaps, if_neg h]
      exact ⟨ihp, fun i hmem =>
        ⟨le_trans (le_max_left _ _) (ihm i hmem).1, (ihm i hmem).2⟩⟩

/-- **C4 counterexample.** The claim's "disjoint, ascending, never
zero-length" output is false of the code as stated: the source
(src/test_pdf_scraping.py:204-220) has no `InvalidIntervalError` guard,
so an inverted conflict `(600, 570)` (end before start) inside the
candidate `(540, 1020)` makes the sweep emit `(540, 600)` and
`(570, 1020)`, which overlap. -/
theorem subtractConflicts_overlap_counterexample :
    subtractConflicts (540, 1020) [(600, 570)] = [(540, 600), (570, 1020)]
    ∧ ¬ ([((540 : Nat), (600 : Nat)), (570, 1020)]).Pairwise
        (fun i j => i.2 ≤ j.1) :=
  ⟨by decide, by decide⟩

/-- **C4 (amended).** `subtractConflicts` — the gap sweep of
`add_secret_swim_times`, src/test_pdf_scraping.py:204-220 — sorts the
conflicts by start (Python's tuple sort), sweeps a cursor from the
candidate's start emitting `[cursor, conflict.start)` for each conflict
starting past the cursor and advancing the cursor to
`max cursor conflict.end`, then emits the trailing remainder; provided
every conflict has `start < end` (the §3 record invariant; the spec's
`InvalidIntervalError` guard is absent from the code, which on an
`end ≤ start` conflict emits overlapping intervals instead), the result
is a list of disjoint, ascending, never zero-length sub-intervals; an
empty conflict list returns the (nonempty) candidate itself, a conflict
identical to the candidate returns the empty list, and the spec's worked
example `[9:00,17:00] - {[10:00,11:00],[13:00,14:00]}` (in minutes)
holds. -/
theorem subtractConflicts_spec (cand : Nat × Nat)
    (conflicts : List (Nat × Nat))
    (hcand : cand.1 < cand.2) (hvalid : ∀ c ∈ conflicts, c.1 < c.2) :
    ((subtractConflicts cand conflicts).Pairwise (fun i j => i.2 ≤ j.1)
      ∧ ∀ i ∈ subtractConflicts cand conflicts, i.1 < i.2)
    ∧ subtractConflicts cand [] = [cand]
    ∧ subtractConflicts cand [cand] = []
    ∧ subtractConflicts (540, 1020) [(600, 660), (780, 840)]
        = [(540, 600), (660, 780), (840, 1020)] := by
  refine ⟨?_, ?_, ?_, by decide⟩
  · have hsv : ∀ c ∈ sortPairs conflicts, c.1 < c.2 := fun c hc =>
      hvalid c ((sortPairs_perm conflicts).mem_iff.1 hc)
    obtain ⟨hp, hm⟩ := sweepGaps_props (sortPairs conflicts) cand.1 cand.2 hsv
    exact ⟨hp, fun i hmem => (hm i hmem).2⟩
  · simp [subtractConflicts, sortPairs, sweepGaps, hcand]
  · have h1 : ¬ (cand.1 < cand.1) := lt_irrefl _
    have h2 : max cand.1 cand.2 = cand.2 := Nat.max_eq_right (le_of_lt hcand)
    simp [subtractConflicts, sortPairs, insertPair, sweepGaps, h1, h2, lt_irrefl]

/-- Witness for C4 (amended) at the spec's worked example. -/
theorem subtractConflicts_spec_witness :
    (subtractConflicts (540, 1020) [(600, 660), (780, 840)]).Pairwise
        (fun i j => i.2 ≤ j.1)
      ∧ ∀ i ∈ subtractConflicts (540, 1020) [(600, 660), (780, 840)],
          i.1 < i.2 :=
  (subtractConflicts_spec (540, 1020) [(600, 660), (780, 840)]
    (by decide) (by decide)).1

/-! ## C5/C9: phantom-detection lemmas -/

theorem phantomsOf_mem_intro (sched : Weekly Activity)
    (v : String → Activity → Bool) {e : String × Activity × String}
    (he : e ∈ find_suspicious_duplicates sched) (hv : v e.1 e.2.1 = false) :
    (e.1, e.2.1) ∈ phantomsOf sched v := by
  refine List.mem_filterMap.2 ⟨e, he, ?_⟩
  simp [hv]

theorem phantomsOf_mem_elim (sched : Weekly Activity)
    (v : String → Activity → Bool) {ph : String × Activity}
    (h : ph ∈ phantomsOf sched v) :
    ∃ e ∈ find_suspicious_duplicates sched,
      v e.1 e.2.1 = false ∧ ph = (e.1, e.2.1) := by
  rcases List.mem_filterMap.1 h with ⟨e, he, hf⟩
  cases hv : v e.1 e.2.1 with
  | false =>
    rw [hv] at hf
    simp only [if_neg Bool.false_ne_true, Option.some.injEq] at hf
    exact ⟨e, he, hv, hf.symm⟩
  | true =>
    rw [hv] at hf
    simp at hf

theorem dictGet_filter (sched : Weekly Activity) (q : String → Activity → Bool)
    (day : String) :
    dictGet (sched.map (fun p => (p.1, p.2.filter (q p.1)))) day
      = (dictGet sched day).filter (q day) := by
  have h := dictFind_mapVals sched (fun d l => l.filter (q d)) day
  rw [dictGet, dictGet, h]
  cases dictFind sched day <;> rfl

/-- **C9.** The phantom-removal pass only ever removes records: it keeps
the day-key structure, returns for each day a subsequence of that day's
input records (never adds, modifies, or reorders), and returns the input
schedule unchanged both when no suspicious adjacent-day duplicate exists
and when every flagged record re-verifies affirmatively. -/
theorem remove_phantom_frame (sched : Weekly Activity)
    (verify : String → Activity → Bool) :
    ((remove_phantom_entries sched verify).map Prod.fst = sched.map Prod.fst)
    ∧ (∀ day, (dictGet (remove_phantom_entries sched verify) day).Sublist
        (dictGet sched day))
    ∧ (find_suspicious_duplicates sched = [] →
        remove_phantom_entries sched verify = sched)
    ∧ ((∀ e ∈ find_suspicious_duplicates sched, verify e.1 e.2.1 = true) →
        remove_phantom_entries sched verify = sched) := by
  by_cases h1 : find_suspicious_duplicates sched = []
  · rw [remove_phantom_entries, if_pos h1]
    exact ⟨rfl, fun day => List.Sublist.refl _, fun _ => rfl, fun _ => rfl⟩
  · have hall : (∀ e ∈ find_suspicious_duplicates sched, verify e.1 e.2.1 = true) →
        remove_phantom_entries sched verify = sched := by
      intro hv
      have h2 : phantomsOf sched verify = [] := by
        rw [phantomsOf, List.filterMap_eq_nil_iff]
        intro e he
        simp [hv e he]
      rw [remove_phantom_entries, if_neg h1, if_pos h2]
    by_cases h2 : phantomsOf sched verify = []
    · rw [remove_phantom_entries, if_neg h1, if_pos h2]
      exact ⟨rfl, fun day => List.Sublist.refl _, fun h => absurd h h1, fun _ => rfl⟩
    · rw [remove_phantom_entries, if_neg h1, if_neg h2]
      refine ⟨?_, ?_, fun h => absurd h h1, ?_⟩
      · rw [List.map_map]
        rfl
      · intro day
        rw [dictGet_filter sched
          (fun d slot => !((phantomsOf sched verify).any
            (fun ph => ph.1 = d ∧ slotKeyRaw ph.2 = slotKeyRaw slot))) day]
        exact List.filter_sublist _
      · intro hv
        exfalso
        apply h2
        rw [phantomsOf, List.filterMap_eq_nil_iff]
        intro e he
        simp [hv e he]

/-- Witness for C9: a schedule with a verified-real duplicate is returned
unchanged, and one with no duplicates at all is returned unchanged. -/
theorem remove_phantom_frame_witness :
    remove_phantom_entries [("Monday", [lapA]), ("Tuesday", [lapA])]
        (fun _ _ => true) = [("Monday", [lapA]), ("Tuesday", [lapA])]
    ∧ remove_phantom_entries [("Monday", [lapA])] (fun _ _ => false)
        = [("Monday", [lapA])] :=
  ⟨(remove_phantom_frame [("Monday", [lapA]), ("Tuesday", [lapA])]
      (fun _ _ => true)).2.2.2 (fun e _ => rfl),
   (remove_phantom_frame [("Monday", [lapA])] (fun _ _ => false)).2.2.1
      (by decide)⟩

theorem find_suspicious_mem (sched : Weekly Activity)
    (day : String) (slot : Activity) (adj : String)
    (h : (day, slot, adj) ∈ find_suspicious_duplicates sched) :
    day ∈ WEEKDAY_ORDER ∧ adj ∈ get_adjacent_days day
    ∧ ∃ a2 ∈ dictGet sched adj, slotKeyRaw a2 = slotKeyRaw slot := by
  rcases List.mem_flatMap.1 h with ⟨p, _, hp⟩
  by_cases hw : p.1 ∈ WEEKDAY_ORDER
  · rw [if_pos hw] at hp
    rcases List.mem_flatMap.1 hp with ⟨s, _, hs⟩
    rcases List.mem_filterMap.1 hs with ⟨ad, had, hif⟩
    by_cases hany : (dictGet sched ad).any (fun a2 => slotKeyRaw a2 = slotKeyRaw s) = true
    · rw [if_pos hany] at hif
      have h1 : p.1 = day := congrArg (fun t => t.1) (Option.some.inj hif)
      have h2 : s = slot := congrArg (fun t => t.2.1) (Option.some.inj hif)
      have h3 : ad = adj := congrArg (fun t => t.2.2) (Option.some.inj hif)
      subst h1 h2 h3
      rcases List.any_eq_true.1 hany with ⟨a2, ha2, hk⟩
      exact ⟨hw, had, a2, ha2, of_decide_eq_true hk⟩
    · rw [if_neg hany] at hif
      cases hif
  · rw [if_neg hw] at hp
    cases hp

/-- **C5.** Phantom detection compares records only against the
immediately adjacent day(s) of the fixed Sunday-first 7-day ordering —
no week wrap, first and last days have one neighbor (the explicit
adjacency table, plus: every suspicious flag pairs a weekday with one of
its literal neighbors on a matching key) — and a flagged record verified
negative is removed exactly from the day it was flagged on: a record is
retained whenever every same-day flag on its key verifies affirmative,
removed when some same-day flag on its key verifies negative, and the
concrete Monday/Tuesday duplicate verified `NO` on Tuesday disappears
from Tuesday only. -/
theorem phantom_adjacency_locality :
    (get_adjacent_days "Sunday" = ["Monday"]
      ∧ get_adjacent_days "Monday" = ["Sunday", "Tuesday"]
      ∧ get_adjacent_days "Tuesday" = ["Monday", "Wednesday"]
      ∧ get_adjacent_days "Wednesday" = ["Tuesday", "Thursday"]
      ∧ get_adjacent_days "Thursday" = ["Wednesday", "Friday"]
      ∧ get_adjacent_days "Friday" = ["Thursday", "Saturday"]
      ∧ get_adjacent_days "Saturday" = ["Friday"])
    ∧ (∀ (sched : Weekly Activity) (day : String) (slot : Activity) (adj : String),
        (day, slot, adj) ∈ find_suspicious_duplicates sched →
        day ∈ WEEKDAY_ORDER ∧ adj ∈ get_adjacent_days day
          ∧ ∃ a2 ∈ dictGet sched adj, slotKeyRaw a2 = slotKeyRaw slot)
    ∧ (∀ (sched : Weekly Activity) (v : String → Activity → Bool)
          (day : String) (s : Activity), s ∈ dictGet sched day →
        (∀ e ∈ find_suspicious_duplicates sched,
          e.1 = day → slotKeyRaw e.2.1 = slotKeyRaw s → v e.1 e.2.1 = true) →
        s ∈ dictGet (remove_phantom_entries sched v) day)
    ∧ (∀ (sched : Weekly Activity) (v : String → Activity → Bool)
          (day : String) (s : Activity),
        (∃ e ∈ find_suspicious_duplicates sched,
          e.1 = day ∧ slotKeyRaw e.2.1 = slotKeyRaw s ∧ v e.1 e.2.1 = false) →
        s ∉ dictGet (remove_phantom_entries sched v) day)
    ∧ remove_phantom_entries [("Monday", [lapA]), ("Tuesday", [lapA])]
        (fun d _ => decide (d ≠ "Tuesday"))
        = [("Monday", [lapA]), ("Tuesday", [])] := by
  refine ⟨by decide, fun sched day slot adj h => find_suspicious_mem sched day slot adj h,
    ?_, ?_, by decide⟩
  · intro sched v day s hs hall
    by_cases h1 : find_suspicious_duplicates sched = []
    · rw [remove_phantom_entries, if_pos h1]
      exact hs
    · by_cases h2 : phantomsOf sched v = []
      · rw [remove_phantom_entries, if_neg h1, if_pos h2]
        exact hs
      · rw [remove_phantom_entries, if_neg h1, if_neg h2,
          dictGet_filter sched
            (fun d slot2 => !((phantomsOf sched v).any
              (fun ph => ph.1 = d ∧ slotKeyRaw ph.2 = slotKeyRaw slot2))) day]
        refine List.mem_filter.2 ⟨hs, ?_⟩
        rw [Bool.not_eq_true']
        rw [List.any_eq_false]
        intro ph hph
        rw [decide_eq_true_eq]
        rintro ⟨hd, hk⟩
        rcases phantomsOf_mem_elim sched v hph with ⟨e, he, hv, hpe⟩
        have he1 : e.1 = day := by rw [hpe] at hd; exact hd
        have hek : slotKeyRaw e.2.1 = slotKeyRaw s := by rw [hpe] at hk; exact hk
        rw [hall e he he1 hek] at hv
        cases hv
  · intro sched v day s hex
    rcases hex with ⟨e, he, hed, hek, hv⟩
    have h1 : find_suspicious_duplicates sched ≠ [] := by
      intro h
      rw [h] at he
      cases he
    have hph : (e.1, e.2.1) ∈ phantomsOf sched v := phantomsOf_mem_intro sched v he hv
    have h2 : phantomsOf sched v ≠ [] := by
      intro h
      rw [h] at hph
      cases hph
    rw [remove_phantom_entries, if_neg h1, if_neg h2,
      dictGet_filter sched
        (fun d slot2 => !((phantomsOf sched v).any
          (fun ph => ph.1 = d ∧ slotKeyRaw ph.2 = slotKeyRaw slot2))) day]
    intro hmem
    have hpred := (List.mem_filter.1 hmem).2
    rw [Bool.not_eq_true'] at hpred
    have : ((phantomsOf sched v).any
        (fun ph => ph.1 = day ∧ slotKeyRaw ph.2 = slotKeyRaw s)) = true := by
      refine List.any_eq_true.2 ⟨(e.1, e.2.1), hph, ?_⟩
      exact decide_eq_true ⟨hed, hek⟩
    rw [this] at hpred
    cases hpred

/-- Witness for C5 at concrete inputs: the Monday copy of a duplicate,
all of whose Monday flags verify affirmative, is retained, and the
Tuesday copy with a negative Tuesday flag is removed. -/
theorem phantom_adjacency_locality_witness :
    lapA ∈ dictGet (remove_phantom_entries [("Monday", [lapA]), ("Tuesday", [lapA])]
        (fun d _ => decide (d ≠ "Tuesday"))) "Monday"
    ∧ lapA ∉ dictGet (remove_phantom_entries [("Monday", [lapA]), ("Tuesday", [lapA])]
        (fun d _ => decide (d ≠ "Tuesday"))) "Tuesday" :=
  ⟨phantom_adjacency_locality.2.2.1 [("Monday", [lapA]), ("Tuesday", [lapA])]
      (fun d _ => decide (d ≠ "Tuesday")) "Monday" lapA (by decide) (by decide),
   phantom_adjacency_locality.2.2.2.1 [("Monday", [lapA]), ("Tuesday", [lapA])]
      (fun d _ => decide (d ≠ "Tuesday")) "Tuesday" lapA (by decide)⟩

/-! ## C2/C3: availability-deriver lemmas -/

theorem filterMap_ite_none (c : α → Bool) (f : α → β) (l : List α) :
    l.filterMap (fun a => if c a then none else some (f a))
      = (l.filter (fun a => !c a)).map f := by
  induction l with
  | nil => rfl
  | cons a l ih =>
    by_cases h : c a = true <;> simp [h, ih]

/-- **C2 counterexample.** Two distinct, overlapping lap-swim records on
the same day: the claim demands zero derived windows for each of them
(some other record overlaps each), but `calculate_balboa_secret_swim`
emits a whole window for both, because its conflict scan skips every
record whose activity name contains `'lap swim'`, not just the record
itself. -/
theorem balboa_overlap_counterexample :
    times_overlap lapA lapB = true ∧ lapA ≠ lapB
    ∧ isLapSwim lapA = true ∧ isLapSwim lapB = true
    ∧ dictGet (calculate_balboa_secret_swim
          [("Monday", [lapA, lapB])] "Balboa Pool") "Monday"
        = [balboaSlot "Balboa Pool" "Monday" lapA,
           balboaSlot "Balboa Pool" "Monday" lapB] := by
  refine ⟨by decide, by decide, by decide, by decide, by decide⟩

/-- **C2 (amended).** Whole-window (Balboa) policy: for every lap-swim
record `r` on a day, if some other **non-lap-swim** record overlaps `r`
then no window is derived from `r`, and otherwise exactly one window
equal to `r`'s whole `[start, end]` is emitted with the configured note
— the day's output is exactly the non-conflicting lap-swim records
mapped to whole windows, in order (the policy never splits a window);
the spec's two worked examples hold. -/
theorem balboa_whole_window_amended :
    (∀ (pool day : String) (acts : List Activity),
      balboaDay pool day acts
        = (acts.filter (fun r => isLapSwim r
              && !acts.any (fun o => !isLapSwim o && times_overlap r o))).map
            (balboaSlot pool day))
    ∧ (∀ (pool day : String) (acts : List Activity) (r : Activity),
        r ∈ acts → isLapSwim r = true →
        (acts.any (fun o => !isLapSwim o && times_overlap r o)) = false →
        balboaSlot pool day r ∈ balboaDay pool day acts)
    ∧ (∀ (raw : Weekly Activity) (pool day : String), day ∈ weekDays7 →
        dictFind (calculate_balboa_secret_swim raw pool) day
          = some (balboaDay pool day (dictGet raw day)))
    ∧ dictGet (calculate_balboa_secret_swim
          [("Monday", [lapA, famC])] "Balboa Pool") "Monday" = []
    ∧ dictGet (calculate_balboa_secret_swim
          [("Monday", [lapA])] "Balboa Pool") "Monday"
        = [balboaSlot "Balboa Pool" "Monday" lapA] := by
  have heq : ∀ (pool day : String) (acts : List Activity),
      balboaDay pool day acts
        = (acts.filter (fun r => isLapSwim r
              && !acts.any (fun o => !isLapSwim o && times_overlap r o))).map
            (balboaSlot pool day) := by
    intro pool day acts
    rw [balboaDay, filterMap_ite_none, List.filter_filter]
    congr 1
    apply List.filter_congr
    intro r _
    rw [Bool.and_comm]
  refine ⟨heq, ?_, ?_, by decide, by decide⟩
  · intro pool day acts r hr hlap hno
    rw [heq]
    refine List.mem_map.2 ⟨r, ?_, rfl⟩
    refine List.mem_filter.2 ⟨hr, ?_⟩
    rw [hlap, hno]
    rfl
  · intro raw pool day hday
    rw [calculate_balboa_secret_swim, dictFind_mapKeys, if_pos hday]

/-- Witness for C2 (amended): a lone lap-swim record derives its whole
window. -/
theorem balboa_whole_window_amended_witness :
    balboaSlot "Balboa Pool" "Monday" lapA
      ∈ balboaDay "Balboa Pool" "Monday" [lapA, lapB] :=
  balboa_whole_window_amended.2.1 "Balboa Pool" "Monday" [lapA, lapB] lapA
    (by decide) (by decide) (by decide)

theorem garfieldGo_sound (pool day : String) (acts : List Activity) :
    ∀ (l : List Activity) (seen : List (PyStr × PyStr)) (w : SwimSlot),
      w ∈ garfieldGo pool day acts l seen →
      ∃ a ∈ l, conflicts_with_small_pool a = false ∧ w = garfieldSlot pool day a := by
  intro l
  induction l with
  | nil =>
    intro seen w h
    cases h
  | cons a rest ih =>
    intro seen w h
    by_cases h1 : conflicts_with_small_pool a = true
    · rw [garfieldGo, if_pos h1] at h
      rcases ih seen w h with ⟨b, hb, hcb, hwb⟩
      exact ⟨b, List.mem_cons_of_mem a hb, hcb, hwb⟩
    · have h1f : conflicts_with_small_pool a = false := Bool.eq_false_iff.2 h1
      by_cases h2 : (acts.any (fun other =>
          decide (other ≠ a) && conflicts_with_small_pool other
            && times_overlap a other)) = true
      · rw [garfieldGo, if_neg h1, if_pos h2] at h
        rcases ih seen w h with ⟨b, hb, hcb, hwb⟩
        exact ⟨b, List.mem_cons_of_mem a hb, hcb, hwb⟩
      · by_cases h3 : (a.start, a.end_) ∈ seen
        · rw [garfieldGo, if_neg h1, if_neg h2, if_pos h3] at h
          rcases ih seen w h with ⟨b, hb, hcb, hwb⟩
          exact ⟨b, List.mem_cons_of_mem a hb, hcb, hwb⟩
        · rw [garfieldGo, if_neg h1, if_neg h2, if_neg h3] at h
          rcases List.mem_cons.1 h with rfl | h
          · exact ⟨a, List.mem_cons_self a rest, h1f, rfl⟩
          · rcases ih _ w h with ⟨b, hb, hcb, hwb⟩
            exact ⟨b, List.mem_cons_of_mem a hb, hcb, hwb⟩

theorem garfieldGo_complete (pool day : String) (acts : List Activity)
    (a : Activity) (hnc : conflicts_with_small_pool a = false)
    (hno : (acts.any (fun o =>
      decide (o ≠ a) && conflicts_with_small_pool o && times_overlap a o)) = false) :
    ∀ (l : List Activity) (seen : List (PyStr × PyStr)), a ∈ l →
      (a.start, a.end_) ∈ seen
      ∨ ∃ w ∈ garfieldGo pool day acts l seen,
          w.start = a.start ∧ w.end_ = a.end_
          ∧ w.note = "Parent Child Swim in Small Pool" := by
  intro l
  induction l with
  | nil =>
    intro seen h
    cases h
  | cons b rest ih =>
    intro seen hmem
    rcases List.mem_cons.1 hmem with rfl | hmem
    · -- the head is the qualifying record itself
      rw [garfieldGo, if_neg (by rw [hnc]; exact Bool.false_ne_true),
        if_neg (by rw [hno]; exact Bool.false_ne_true)]
      by_cases h3 : (a.start, a.end_) ∈ seen
      · exact Or.inl h3
      · rw [if_neg h3]
        exact Or.inr ⟨garfieldSlot pool day a,
          List.mem_cons_self _ _, rfl, rfl, rfl⟩
    · by_cases h1 : conflicts_with_small_pool b = true
      · rw [garfieldGo, if_pos h1]
        exact ih seen hmem
      · by_cases h2 : (acts.any (fun other =>
            decide (other ≠ b) && conflicts_with_small_pool other
              && times_overlap b other)) = true
        · rw [garfieldGo, if_neg h1, if_pos h2]
          exact ih seen hmem
        · by_cases h3 : (b.start, b.end_) ∈ seen
          · rw [garfieldGo, if_neg h1, if_neg h2, if_pos h3]
            exact ih seen hmem
          · rw [garfieldGo, if_neg h1, if_neg h2, if_neg h3]
            rcases ih ((b.start, b.end_) :: seen) hmem with hseen | ⟨w, hw, hws⟩
            · rcases List.mem_cons.1 hseen with hpair | hseen
              · -- the emitted head window carries exactly a's interval
                refine Or.inr ⟨garfieldSlot pool day b, List.mem_cons_self _ _, ?_, ?_, rfl⟩
                · exact (congrArg Prod.fst hpair).symm
                · exact (congrArg Prod.snd hpair).symm
              · exact Or.inl hseen
            · exact Or.inr ⟨w, List.mem_cons_of_mem _ hw, hws⟩

/-- **C3.** `conflicts_with_small_pool` classifies by first match in the
claimed order — small-pool mention conflicts; else main-pool mention
does not; else a parenthesized lane count does not; else an empty
location conflicts; else any other label does not — and consequently the
gap-filling (Garfield) policy derives windows only from non-conflicting
activities (so an empty-tagged activity never sources a window), while a
non-conflicting activity with no overlapping conflicting record yields a
derived window equal to its own interval. -/
theorem conflicts_classification_gap_filling :
    (∀ a : Activity,
      containsSub (pys "small pool") (pyLower (pyStrip a.pool_area)) = true →
      conflicts_with_small_pool a = true)
    ∧ (∀ a : Activity,
      containsSub (pys "small pool") (pyLower (pyStrip a.pool_area)) = false →
      containsSub (pys "main pool") (pyLower (pyStrip a.pool_area)) = true →
      conflicts_with_small_pool a = false)
    ∧ (∀ a : Activity,
      containsSub (pys "small pool") (pyLower (pyStrip a.pool_area)) = false →
      containsSub (pys "main pool") (pyLower (pyStrip a.pool_area)) = false →
      hasLaneCount (pyLower (pyStrip a.pool_area)) = true →
      conflicts_with_small_pool a = false)
    ∧ (∀ a : Activity,
      containsSub (pys "small pool") (pyLower (pyStrip a.pool_area)) = false →
      containsSub (pys "main pool") (pyLower (pyStrip a.pool_area)) = false →
      hasLaneCount (pyLower (pyStrip a.pool_area)) = false →
      pyLower (pyStrip a.pool_area) = [] →
      conflicts_with_small_pool a = true)
    ∧ (∀ a : Activity,
      containsSub (pys "small pool") (pyLower (pyStrip a.pool_area)) = false →
      containsSub (pys "main pool") (pyLower (pyStrip a.pool_area)) = false →
      hasLaneCount (pyLower (pyStrip a.pool_area)) = false →
      pyLower (pyStrip a.pool_area) ≠ [] →
      conflicts_with_small_pool a = false)
    ∧ (∀ (pool day : String) (acts : List Activity) (w : SwimSlot),
        w ∈ garfieldDay pool day acts →
        ∃ a ∈ acts, conflicts_with_small_pool a = false ∧ w = garfieldSlot pool day a)
    ∧ (∀ (pool day : String) (acts : List Activity) (a : Activity),
        a ∈ acts → conflicts_with_small_pool a = false →
        (acts.any (fun o =>
          decide (o ≠ a) && conflicts_with_small_pool o && times_overlap a o)) = false →
        ∃ w ∈ garfieldDay pool day acts,
          w.start = a.start ∧ w.end_ = a.end_
          ∧ w.note = "Parent Child Swim in Small Pool")
    ∧ (∀ (raw : Weekly Activity) (pool day : String), day ∈ weekDays7 →
        dictFind (calculate_garfield_secret_swim raw pool) day
          = some (garfieldDay pool day (dictGet raw day))) := by
  refine ⟨?_, ?_, ?_, ?_, ?_, ?_, ?_, ?_⟩
  · intro a h
    rw [conflicts_with_small_pool]
    simp only [h, if_true]
  · intro a h1 h2
    rw [conflicts_with_small_pool]
    simp only [h1, h2, Bool.false_eq_true, if_false, if_true]
  · intro a h1 h2 h3
    rw [conflicts_with_small_pool]
    simp only [h1, h2, h3, Bool.false_eq_true, if_false, if_true]
  · intro a h1 h2 h3 h4
    rw [conflicts_with_small_pool]
    simp only [h4]
    decide
  · intro a h1 h2 h3 h4
    rw [conflicts_with_small_pool]
    simp only [h1, h2, h3, h4, Bool.false_eq_true, if_false]
  · intro pool day acts w hw
    exact garfieldGo_sound pool day acts acts [] w hw
  · intro pool day acts a ha hnc hno
    rcases garfieldGo_complete pool day acts a hnc hno acts [] ha with hseen | hex
    · cases hseen
    · exact hex
  · intro raw pool day hday
    rw [calculate_garfield_secret_swim, dictFind_mapKeys, if_pos hday]

/-- Witness for C3 at concrete inputs: an empty-tagged activity conflicts,
a lane-count activity does not, and a lone lane-count activity yields a
window equal to its own interval. -/
theorem conflicts_classification_gap_filling_witness :
    conflicts_with_small_pool famC = true
    ∧ conflicts_with_small_pool lapA = false
    ∧ ∃ w ∈ garfieldDay "Garfield Pool" "Monday" [lapA, lessD],
        w.start = lapA.start ∧ w.end_ = lapA.end_
        ∧ w.note = "Parent Child Swim in Small Pool" :=
  ⟨conflicts_classification_gap_filling.2.2.2.1 famC
      (by decide) (by decide) (by decide) (by decide),
   conflicts_classification_gap_filling.2.2.1 lapA
      (by decide) (by decide) (by decide),
   conflicts_classification_gap_filling.2.2.2.2.2.2.1 "Garfield Pool" "Monday"
      [lapA, lessD] lapA (by decide) (by decide) (by decide)⟩

/-! ## C6/C7: string-evaluation lemmas -/

theorem digit_bounds (c : Nat) (h : isDigitN c = true) : 48 ≤ c ∧ c ≤ 57 := by
  rw [isDigitN] at h
  simp only [Bool.and_eq_true, decide_eq_true_eq] at h
  exact h

theorem digit_not_ws (c : Nat) (h : isDigitN c = true) : isWsN c = false := by
  have hb := digit_bounds c h
  rw [isWsN]
  simp only [Bool.or_eq_false_iff, decide_eq_false_iff_not]
  omega

theorem ws_cases (c : Nat) (h : isWsN c = true) :
    c = 32 ∨ c = 9 ∨ c = 10 ∨ c = 13 ∨ c = 11 ∨ c = 12 := by
  rw [isWsN] at h
  simp only [Bool.or_eq_true, decide_eq_true_eq] at h
  tauto

theorem dropWhile_append_all (p : Nat → Bool) (a b : List Nat)
    (h : ∀ c ∈ a, p c = true) : (a ++ b).dropWhile p = b.dropWhile p := by
  induction a with
  | nil => rfl
  | cons c a2 ih =>
    rw [List.cons_append, List.dropWhile_cons, h c (List.mem_cons_self _ _)]
    exact ih (fun d hd => h d (List.mem_cons_of_mem _ hd))

theorem pyStrip_sandwich (d w : List Nat) (hdne : d ≠ [])
    (hd : ∀ c ∈ d, isWsN c = false) (hw : ∀ c ∈ w, isWsN c = true) :
    pyStrip (d ++ w) = d := by
  rw [pyStrip]
  have h1 : (d ++ w).dropWhile isWsN = d ++ w := by
    cases d with
    | nil => exact absurd rfl hdne
    | cons c d2 =>
      rw [List.cons_append, List.dropWhile_cons, hd c (List.mem_cons_self _ _)]
      rfl
  rw [h1, List.reverse_append,
    dropWhile_append_all _ _ _ (fun c hc => hw c (List.mem_reverse.1 hc))]
  have h2 : d.reverse.dropWhile isWsN = d.reverse := by
    cases hr : d.reverse with
    | nil => rfl
    | cons c r2 =>
      have hcm : c ∈ d := List.mem_reverse.1 (hr ▸ List.mem_cons_self c r2)
      rw [List.dropWhile_cons, hd c hcm]
      rfl
  rw [h2, List.reverse_reverse]

theorem pyStrip_id (l : List Nat) (h : ∀ c ∈ l, isWsN c = false) :
    pyStrip l = l := by
  cases l with
  | nil => rfl
  | cons c l2 =>
    have := pyStrip_sandwich (c :: l2) [] (List.cons_ne_nil _ _) h (by simp)
    simpa using this

theorem pyUpper_id (l : List Nat) (h : ∀ c ∈ l, c < 97) : pyUpper l = l := by
  induction l with
  | nil => rfl
  | cons c l2 ih =>
    rw [pyUpper, List.map_cons]
    have h1 : upperN c = c := by
      rw [upperN, if_neg]
      have := h c (List.mem_cons_self _ _)
      omega
    rw [h1]
    have := ih (fun d hd => h d (List.mem_cons_of_mem _ hd))
    rw [pyUpper] at this
    rw [this]

theorem removeSub2_append_no_x (x y : Nat) (l m : List Nat)
    (h : ∀ c ∈ l, c ≠ x) :
    removeSub2 x y (l ++ m) = l ++ removeSub2 x y m := by
  induction l with
  | nil => rfl
  | cons c l2 ih =>
    have hc : c ≠ x := h c (List.mem_cons_self _ _)
    have hl : ∀ d ∈ l2, d ≠ x := fun d hd => h d (List.mem_cons_of_mem _ hd)
    cases hlm : l2 ++ m with
    | nil =>
      rcases List.append_eq_nil.1 hlm with ⟨rfl, rfl⟩
      rfl
    | cons c2 rest =>
      calc removeSub2 x y (c :: l2 ++ m)
          = removeSub2 x y (c :: c2 :: rest) := by rw [List.cons_append, hlm]
        _ = c :: removeSub2 x y (c2 :: rest) := by
            show (if c = x ∧ c2 = y then removeSub2 x y rest
              else c :: removeSub2 x y (c2 :: rest)) = _
            rw [if_neg (by rintro ⟨rfl, -⟩; exact hc rfl)]
        _ = c :: removeSub2 x y (l2 ++ m) := by rw [hlm]
        _ = c :: (l2 ++ removeSub2 x y m) := by rw [ih hl]
        _ = c :: l2 ++ removeSub2 x y m := by rw [List.cons_append]

theorem removeSub2_eat (x y : Nat) (m : List Nat) :
    removeSub2 x y (x :: y :: m) = removeSub2 x y m := by
  show (if x = x ∧ y = y then removeSub2 x y m
    else x :: removeSub2 x y (y :: m)) = _
  rw [if_pos ⟨rfl, rfl⟩]

theorem removeSub2_id (x y : Nat) (l : List Nat) (h : ∀ c ∈ l, c ≠ x) :
    removeSub2 x y l = l := by
  have h2 := removeSub2_append_no_x x y l [] h
  rw [List.append_nil, show removeSub2 x y [] = ([] : List Nat) from rfl,
    List.append_nil] at h2
  exact h2

theorem splitColon_no_colon (l : List Nat) (h : ∀ c ∈ l, c ≠ 58) :
    splitColon l = [l] := by
  induction l with
  | nil => rfl
  | cons c l2 ih =>
    rw [splitColon, if_neg (h c (List.mem_cons_self _ _)),
      ih (fun d hd => h d (List.mem_cons_of_mem _ hd))]

theorem splitColon_append (l m : List Nat) (h : ∀ c ∈ l, c ≠ 58) :
    splitColon (l ++ 58 :: m) = l :: splitColon m := by
  induction l with
  | nil =>
    rw [List.nil_append, splitColon, if_pos rfl]
  | cons c l2 ih =>
    rw [List.cons_append, splitColon, if_neg (h c (List.mem_cons_self _ _)),
      ih (fun d hd => h d (List.mem_cons_of_mem _ hd))]

theorem digitsToInt_eval (l : List Nat) (hne : l ≠ [])
    (h : ∀ c ∈ l, isDigitN c = true) :
    digitsToInt l = some (digitsVal l) := by
  rw [digitsToInt, if_pos ⟨hne, List.all_eq_true.2 (fun c hc => h c hc)⟩]

theorem pyInt_eval (d w : List Nat) (hne : d ≠ [])
    (h : ∀ c ∈ d, isDigitN c = true) (hw : ∀ c ∈ w, isWsN c = true) :
    pyInt (d ++ w) = some (digitsVal d) := by
  have hs : pyStrip (d ++ w) = d :=
    pyStrip_sandwich d w hne (fun c hc => digit_not_ws c (h c hc)) hw
  rw [pyInt, hs]
  cases d with
  | nil => exact absurd rfl hne
  | cons c d2 =>
    have hb := digit_bounds c (h c (List.mem_cons_self _ _))
    show (if c = 43 then digitsToInt d2
      else if c = 45 then Option.map (fun v => -v) (digitsToInt d2)
      else digitsToInt (c :: d2)) = some (digitsVal (c :: d2))
    rw [if_neg (by omega), if_neg (by omega)]
    exact digitsToInt_eval _ (List.cons_ne_nil _ _) h

theorem pyInt_digits (l : List Nat) (hne : l ≠ [])
    (h : ∀ c ∈ l, isDigitN c = true) : pyInt l = some (digitsVal l) := by
  have := pyInt_eval l [] hne h (by simp)
  simpa using this

theorem endsWithPM_append (a : List Nat) (p : Nat) :
    endsWithPM (a ++ [p, 77]) = decide (p = 80) := by
  unfold endsWithPM
  rw [show (a ++ [p, 77]).reverse = 77 :: p :: a.reverse by simp]
  simp

theorem digitsVal_two (d1 d2 : Nat) :
    digitsVal [d1, d2] = ((d1 : Int) - 48) * 10 + ((d2 : Int) - 48) := by
  simp [digitsVal]

theorem digitsVal_one (d : Nat) : digitsVal [d] = (d : Int) - 48 := by
  simp [digitsVal]

theorem time_to_minutes_eval (s : PyStr) (hd ws : List Nat) (m1 m2 p : Nat)
    (ht : pyStrip (pyUpper s) = hd ++ 58 :: m1 :: m2 :: (ws ++ [p, 77]))
    (hhd : hd ≠ []) (hdig : ∀ c ∈ hd, isDigitN c = true)
    (hm1 : isDigitN m1 = true) (hm2 : isDigitN m2 = true)
    (hws : ∀ c ∈ ws, isWsN c = true) (hp : p = 65 ∨ p = 80) :
    time_to_minutes s
      = some (merAdjust (digitsVal hd) (decide (p = 80)) * 60
          + (((m1 : Int) - 48) * 10 + ((m2 : Int) - 48))) := by
  have hane : ∀ c ∈ hd ++ 58 :: m1 :: m2 :: ws, c ≠ 65 ∧ c ≠ 80 := by
    intro c hc
    simp only [List.mem_append, List.mem_cons] at hc
    rcases hc with hc | rfl | rfl | rfl | hc
    · have := digit_bounds c (hdig c hc)
      omega
    · omega
    · have := digit_bounds c hm1
      omega
    · have := digit_bounds c hm2
      omega
    · have := ws_cases c (hws c hc)
      omega
  have hta : pyStrip (pyUpper s) = (hd ++ 58 :: m1 :: m2 :: ws) ++ [p, 77] := by
    rw [ht]
    simp
  have hNOON : ¬ (pyStrip (pyUpper s) = pys "NOON") := by
    rw [ht]
    intro heq
    have h58 : (58 : Nat) ∈ hd ++ 58 :: m1 :: m2 :: (ws ++ [p, 77]) := by simp
    rw [heq] at h58
    revert h58
    decide
  have hEnds : endsWithPM (pyStrip (pyUpper s)) = decide (p = 80) := by
    rw [hta]
    exact endsWithPM_append _ _
  have hrem : removeSub2 80 77 (removeSub2 65 77 (pyStrip (pyUpper s)))
      = hd ++ 58 :: m1 :: m2 :: ws := by
    rw [hta]
    rcases hp with rfl | rfl
    · rw [removeSub2_append_no_x 65 77 _ _ (fun c hc => (hane c hc).1),
        removeSub2_eat, show removeSub2 65 77 ([] : List Nat) = [] from rfl,
        List.append_nil]
      exact removeSub2_id 80 77 _ (fun c hc => (hane c hc).2)
    · rw [removeSub2_id 65 77 _ (by
        intro c hc
        rcases List.mem_append.1 hc with hc | hc
        · exact (hane c hc).1
        · simp only [List.mem_cons, List.mem_singleton] at hc
          rcases hc with rfl | rfl | h
          · omega
          · omega
          · cases h),
        removeSub2_append_no_x 80 77 _ _ (fun c hc => (hane c hc).2),
        removeSub2_eat, show removeSub2 80 77 ([] : List Nat) = [] from rfl,
        List.append_nil]
  have hsplit : splitColon (hd ++ 58 :: m1 :: m2 :: ws) = [hd, m1 :: m2 :: ws] := by
    rw [splitColon_append hd _ (fun c hc => by
      have := digit_bounds c (hdig c hc)
      omega)]
    rw [splitColon_no_colon]
    intro c hc
    simp only [List.mem_cons] at hc
    rcases hc with rfl | rfl | hc
    · have := digit_bounds c hm1
      omega
    · have := digit_bounds c hm2
      omega
    · have := ws_cases c (hws c hc)
      omega
  have hH : pyInt hd = some (digitsVal hd) := pyInt_digits hd hhd hdig
  have hM : pyInt (m1 :: m2 :: ws) = some (digitsVal [m1, m2]) := by
    have h2 := pyInt_eval [m1, m2] ws (by simp) (by
      intro c hc
      simp only [List.mem_cons, List.not_mem_nil, or_false] at hc
      rcases hc with rfl | rfl
      · exact hm1
      · exact hm2) hws
    simpa using h2
  simp only [time_to_minutes, hNOON, if_false, hrem, hsplit, hEnds, hH, hM]
  rw [digitsVal_two, merAdjust]

example :
    time_to_minutes (pys " 10:35 pM")
      = some (merAdjust (digitsVal (pys "10")) (decide ((80 : Nat) = 80)) * 60
          + (((51 : Int) - 48) * 10 + ((53 : Int) - 48))) := by
  exact time_to_minutes_eval _ (pys "10") [32] 51 53 80 (by decide) (by decide)
    (by decide) (by decide) (by decide) (by decide) (by decide)

theorem specMeridiem_elim (r : PyStr) (pm : Bool)
    (h : specMeridiem r = some pm) :
    ∃ ws p, r = ws ++ [p, 77] ∧ (∀ c ∈ ws, isWsN c = true)
      ∧ (p = 65 ∨ p = 80) ∧ pm = decide (p = 80) := by
  unfold specMeridiem at h
  rcases hdw : r.dropWhile isWsN with _ | ⟨c1, rest2⟩
  · rw [hdw] at h
    cases h
  · rcases rest2 with _ | ⟨c2, rest3⟩
    · rw [hdw] at h
      cases h
    · rcases rest3 with _ | ⟨c3, rest4⟩
      · rw [hdw] at h
        change (if c1 = 65 ∧ c2 = 77 then some false
          else if c1 = 80 ∧ c2 = 77 then some true else none) = some pm at h
        have hr : r = r.takeWhile isWsN ++ [c1, c2] := by
          rw [← hdw]
          exact (List.takeWhile_append_dropWhile isWsN r).symm
        have hws : ∀ c ∈ r.takeWhile isWsN, isWsN c = true :=
          fun c hc => List.mem_takeWhile_imp hc
        by_cases h1 : c1 = 65 ∧ c2 = 77
        · rcases h1 with ⟨rfl, rfl⟩
          rw [if_pos ⟨rfl, rfl⟩] at h
          refine ⟨r.takeWhile isWsN, 65, hr, hws, Or.inl rfl, ?_⟩
          rw [← Option.some.inj h]
          decide
        · rw [if_neg h1] at h
          by_cases h2 : c1 = 80 ∧ c2 = 77
          · rcases h2 with ⟨rfl, rfl⟩
            rw [if_pos ⟨rfl, rfl⟩] at h
            refine ⟨r.takeWhile isWsN, 80, hr, hws, Or.inr rfl, ?_⟩
            rw [← Option.some.inj h]
            decide
          · rw [if_neg h2] at h
            cases h
      · rw [hdw] at h
        cases h

theorem specAfterColon_elim (hh : Nat) (r : PyStr) (v : Int)
    (he : specAfterColon hh r = some v) :
    ∃ m1 m2 ws p, r = m1 :: m2 :: (ws ++ [p, 77])
      ∧ isDigitN m1 = true ∧ isDigitN m2 = true
      ∧ (∀ c ∈ ws, isWsN c = true) ∧ (p = 65 ∨ p = 80)
      ∧ v = specAdjust hh (decide (p = 80)) * 60
          + (10 * ((m1 : Int) - 48) + ((m2 : Int) - 48)) := by
  rcases r with _ | ⟨m1, _ | ⟨m2, rest⟩⟩
  · cases he
  · cases he
  · change (if isDigitN m1 ∧ isDigitN m2 then
      match specMeridiem rest with
      | none => none
      | some pm =>
        some (specAdjust hh pm * 60 + (10 * ((m1 : Int) - 48) + ((m2 : Int) - 48)))
      else none) = some v at he
    by_cases hdig : isDigitN m1 ∧ isDigitN m2
    · rw [if_pos hdig] at he
      rcases hm : specMeridiem rest with _ | pm
      · rw [hm] at he
        cases he
      · rw [hm] at he
        rcases specMeridiem_elim rest pm hm with ⟨ws, p, hr, hws, hp, hpm⟩
        refine ⟨m1, m2, ws, p, by rw [hr], hdig.1, hdig.2, hws, hp, ?_⟩
        rw [← Option.some.inj he, hpm]
    · rw [if_neg hdig] at he
      cases he

theorem specHourTail_elim (hh : Nat) (r : PyStr) (v : Int)
    (h : specHourTail hh r = some v) :
    (∃ rest2, r = 58 :: rest2 ∧ specAfterColon hh rest2 = some v)
    ∨ (∃ c2 rest3, r = c2 :: 58 :: rest3 ∧ isDigitN c2 = true
        ∧ specAfterColon (10 * hh + (c2 - 48)) rest3 = some v) := by
  rcases r with _ | ⟨c, rest⟩
  · cases h
  · by_cases hc : c = 58
    · subst hc
      rw [show specHourTail hh (58 :: rest) = specAfterColon hh rest from by
        simp [specHourTail]] at h
      exact Or.inl ⟨rest, rfl, h⟩
    · rcases rest with _ | ⟨c3, rest3⟩
      · rw [show specHourTail hh [c] = none from by
          simp [specHourTail, hc]] at h
        cases h
      · rw [show specHourTail hh (c :: c3 :: rest3)
            = (if isDigitN c then
                (if c3 = 58 then specAfterColon (10 * hh + (c - 48)) rest3 else none)
              else none) from by
          simp [specHourTail, hc]] at h
        by_cases hdc : isDigitN c = true
        · rw [if_pos hdc] at h
          by_cases hc3 : c3 = 58
          · subst hc3
            rw [if_pos rfl] at h
            exact Or.inr ⟨c, rest3, rfl, hdc, h⟩
          · rw [if_neg hc3] at h
            cases h
        · rw [if_neg hdc] at h
          cases h

theorem adjust_agree (hi : Int) (hn : Nat) (hcast : hi = (hn : Int)) (pm : Bool) :
    merAdjust hi pm = specAdjust hn pm := by
  subst hcast
  cases pm
  · rw [show merAdjust (hn : Int) false = (if (hn : Int) = 12 then 0 else (hn : Int))
        from by
      rw [merAdjust]
      simp]
    rw [specAdjust]
    simp only [Bool.false_eq_true, if_false]
    split_ifs <;> omega
  · rw [show merAdjust (hn : Int) true
        = (if (hn : Int) ≠ 12 then (hn : Int) + 12 else (hn : Int)) from by
      rw [merAdjust]
      simp]
    rw [specAdjust]
    simp only [if_true]
    split_ifs <;> omega

theorem specParse_agree (s : PyStr) (v : Int) (h : specParse s = some v) :
    time_to_minutes s = some v := by
  by_cases hnoon : pyStrip (pyUpper s) = pys "NOON"
  · have hv : some (720 : Int) = some v := by
      simp only [specParse] at h
      rw [if_pos hnoon] at h
      exact h
    simp only [time_to_minutes]
    rw [if_pos hnoon]
    exact hv
  · simp only [specParse] at h
    rw [if_neg hnoon] at h
    rcases hts : pyStrip (pyUpper s) with _ | ⟨d1, rest1⟩
    · rw [hts] at h
      cases h
    · rw [hts] at h
      change (if isDigitN d1 then specHourTail (d1 - 48) rest1 else none) = some v at h
      by_cases hd1 : isDigitN d1 = true
      · rw [if_pos hd1] at h
        have hb1 := digit_bounds d1 hd1
        rcases specHourTail_elim _ _ _ h with
          ⟨rest2, hr1, hac⟩ | ⟨c2, rest3, hr1, hdc2, hac⟩
        · subst hr1
          rcases specAfterColon_elim _ _ _ hac with
            ⟨m1, m2, ws, p, hr2, hm1, hm2, hws, hp, hv⟩
          subst hr2
          have ht : pyStrip (pyUpper s)
              = [d1] ++ 58 :: m1 :: m2 :: (ws ++ [p, 77]) := by
            rw [hts]
            rfl
          rw [time_to_minutes_eval s [d1] ws m1 m2 p ht (by simp)
            (by
              intro c hc
              simp only [List.mem_singleton] at hc
              subst hc
              exact hd1) hm1 hm2 hws hp]
          rw [hv, digitsVal_one,
            adjust_agree ((d1 : Int) - 48) (d1 - 48) (by omega) _]
          congr 1
          omega
        · subst hr1
          have hb2 := digit_bounds c2 hdc2
          rcases specAfterColon_elim _ _ _ hac with
            ⟨m1, m2, ws, p, hr2, hm1, hm2, hws, hp, hv⟩
          subst hr2
          have ht : pyStrip (pyUpper s)
              = [d1, c2] ++ 58 :: m1 :: m2 :: (ws ++ [p, 77]) := by
            rw [hts]
            rfl
          rw [time_to_minutes_eval s [d1, c2] ws m1 m2 p ht (by simp)
            (by
              intro c hc
              simp only [List.mem_cons, List.not_mem_nil, or_false] at hc
              rcases hc with rfl | rfl
              · exact hd1
              · exact hdc2) hm1 hm2 hws hp]
          rw [hv, digitsVal_two,
            adjust_agree (((d1 : Int) - 48) * 10 + ((c2 : Int) - 48))
              (10 * (d1 - 48) + (c2 - 48)) (by omega) _]
          congr 1
          omega
      · rw [if_neg hd1] at h
        cases h

theorem not_ws_ge40 (c : Nat) (h : 40 ≤ c) : isWsN c = false := by
  rw [isWsN]
  simp only [Bool.or_eq_false_iff, decide_eq_false_iff_not]
  omega

theorem isDigitN_of (c : Nat) (h1 : 48 ≤ c) (h2 : c ≤ 57) : isDigitN c = true := by
  rw [isDigitN]
  simp only [Bool.and_eq_true, decide_eq_true_eq]
  exact ⟨h1, h2⟩

theorem merAdjust_false (hi : Int) : merAdjust hi false = if hi = 12 then 0 else hi := by
  rw [merAdjust]
  simp

theorem merAdjust_true (hi : Int) :
    merAdjust hi true = if hi = 12 then hi else hi + 12 := by
  rw [merAdjust]
  by_cases h : hi = 12 <;> simp [h]

theorem canonVal_false (h12 mm : Nat) :
    canonVal h12 mm false = (if h12 = 12 then 0 else h12) * 60 + mm := by
  rw [canonVal]
  simp

theorem canonVal_true (h12 mm : Nat) :
    canonVal h12 mm true = (if h12 = 12 then 12 else h12 + 12) * 60 + mm := by
  rw [canonVal]
  simp

theorem natDigits_lt10 (n : Nat) (h : n < 10) : natDigits n = [48 + n] := by
  simp [natDigits, natDigitsAux, h]

theorem natDigits_10_12 (n : Nat) (h1 : 10 ≤ n) (h2 : n ≤ 12) :
    natDigits n = [49, 48 + (n - 10)] := by
  interval_cases n <;> decide

theorem render_canon (h12 mm : Nat) (pm : Bool)
    (h1 : 1 ≤ h12) (h2 : h12 ≤ 12) (h3 : mm < 60) :
    minutes_to_time (canonVal h12 mm pm)
      = natDigits h12 ++ 58 :: [48 + mm / 10, 48 + mm % 10]
        ++ (if pm then [80, 77] else [65, 77]) := by
  cases pm
  · rw [canonVal_false]
    by_cases he : h12 = 12
    · subst he
      rw [show (if (12 : Nat) = 12 then 0 else 12) * 60 + mm = mm by simp]
      have hdiv : mm / 60 = 0 := by omega
      have hmod : mm % 60 = mm := by omega
      simp only [minutes_to_time, hdiv, hmod, pad2]
      simp
    · rw [show (if h12 = 12 then 0 else h12) * 60 + mm = h12 * 60 + mm by rw [if_neg he]]
      have hdiv : (h12 * 60 + mm) / 60 = h12 := by omega
      have hmod : (h12 * 60 + mm) % 60 = mm := by omega
      simp only [minutes_to_time, hdiv, hmod, pad2]
      rw [if_neg (by omega : ¬ 12 < h12), if_neg (by omega : ¬ h12 = 0),
        show decide (12 ≤ h12) = false from decide_eq_false (by omega)]
  · rw [canonVal_true]
    by_cases he : h12 = 12
    · subst he
      rw [show (if (12 : Nat) = 12 then 12 else 12 + 12) * 60 + mm = 12 * 60 + mm by simp]
      have hdiv : (12 * 60 + mm) / 60 = 12 := by omega
      have hmod : (12 * 60 + mm) % 60 = mm := by omega
      simp only [minutes_to_time, hdiv, hmod, pad2]
      simp
    · rw [show (if h12 = 12 then 12 else h12 + 12) * 60 + mm = (h12 + 12) * 60 + mm
        by rw [if_neg he]]
      have hdiv : ((h12 + 12) * 60 + mm) / 60 = h12 + 12 := by omega
      have hmod : ((h12 + 12) * 60 + mm) % 60 = mm := by omega
      simp only [minutes_to_time, hdiv, hmod, pad2]
      rw [if_pos (by omega : 12 < h12 + 12),
        show h12 + 12 - 12 = h12 from by omega,
        show decide (12 ≤ h12 + 12) = true from decide_eq_true (by omega)]
      simp

theorem canonShape_sound (s : PyStr) (m : Nat) (h : canonShape? s = some m) :
    time_to_minutes s = some (m : Int) ∧ minutes_to_time m = s := by
  rcases s with _ | ⟨a1, s⟩
  · cases h
  rcases s with _ | ⟨a2, s⟩
  · cases h
  rcases s with _ | ⟨a3, s⟩
  · cases h
  rcases s with _ | ⟨a4, s⟩
  · cases h
  rcases s with _ | ⟨a5, s⟩
  · cases h
  rcases s with _ | ⟨a6, s⟩
  · cases h
  rcases s with _ | ⟨a7, s⟩
  · -- six characters: H:MMxM shape
    simp only [canonShape?] at h
    by_cases hc : 49 ≤ a1 ∧ a1 ≤ 57 ∧ a2 = 58 ∧ 48 ≤ a3 ∧ a3 ≤ 53 ∧ 48 ≤ a4 ∧ a4 ≤ 57
        ∧ (a5 = 65 ∨ a5 = 80) ∧ a6 = 77
    · rw [if_pos hc] at h
      rcases hc with ⟨hb1, hb2, rfl, hb3, hb4, hb5, hb6, hp, rfl⟩
      have hm2 : m = canonVal (a1 - 48) (10 * (a3 - 48) + (a4 - 48))
          (decide (a5 = 80)) := (Option.some.inj h).symm
      have hup : pyUpper [a1, 58, a3, a4, a5, 77] = [a1, 58, a3, a4, a5, 77] :=
        pyUpper_id _ (by
          intro c hc
          simp only [List.mem_cons, List.not_mem_nil, or_false] at hc
          rcases hp with rfl | rfl <;>
            rcases hc with rfl | rfl | rfl | rfl | rfl | rfl <;> omega)
      have hstrip : pyStrip [a1, 58, a3, a4, a5, 77] = [a1, 58, a3, a4, a5, 77] :=
        pyStrip_id _ (by
          intro c hc
          simp only [List.mem_cons, List.not_mem_nil, or_false] at hc
          refine not_ws_ge40 c ?_
          rcases hp with rfl | rfl <;>
            rcases hc with rfl | rfl | rfl | rfl | rfl | rfl <;> omega)
      have ht : pyStrip (pyUpper [a1, 58, a3, a4, a5, 77])
          = [a1] ++ 58 :: a3 :: a4 :: ([] ++ [a5, 77]) := by
        rw [hup, hstrip]
        rfl
      have heval := time_to_minutes_eval _ [a1] [] a3 a4 a5 ht (by simp)
        (by
          intro c hc
          simp only [List.mem_singleton] at hc
          subst hc
          exact isDigitN_of _ (by omega) (by omega))
        (isDigitN_of _ (by omega) (by omega)) (isDigitN_of _ (by omega) (by omega))
        (by simp) hp
      constructor
      · rw [heval, hm2]
        congr 1
        rw [digitsVal_one]
        rcases hp with rfl | rfl
        · rw [show decide ((65 : Nat) = 80) = false from rfl, merAdjust_false,
            canonVal_false]
          split_ifs <;> omega
        · rw [show decide ((80 : Nat) = 80) = true from rfl, merAdjust_true,
            canonVal_true]
          split_ifs <;> omega
      · rw [hm2]
        rcases hp with rfl | rfl
        · rw [show decide ((65 : Nat) = 80) = false from rfl,
            render_canon (a1 - 48) _ false (by omega) (by omega) (by omega),
            natDigits_lt10 _ (by omega)]
          rw [show 48 + (a1 - 48) = a1 from by omega,
            show 48 + (10 * (a3 - 48) + (a4 - 48)) / 10 = a3 from by omega,
            show 48 + (10 * (a3 - 48) + (a4 - 48)) % 10 = a4 from by omega]
          rfl
        · rw [show decide ((80 : Nat) = 80) = true from rfl,
            render_canon (a1 - 48) _ true (by omega) (by omega) (by omega),
            natDigits_lt10 _ (by omega)]
          rw [show 48 + (a1 - 48) = a1 from by omega,
            show 48 + (10 * (a3 - 48) + (a4 - 48)) / 10 = a3 from by omega,
            show 48 + (10 * (a3 - 48) + (a4 - 48)) % 10 = a4 from by omega]
          rfl
    · rw [if_neg hc] at h
      cases h
  rcases s with _ | ⟨a8, s⟩
  · -- seven characters: HH:MMxM shape
    simp only [canonShape?] at h
    by_cases hc : a1 = 49 ∧ 48 ≤ a2 ∧ a2 ≤ 50 ∧ a3 = 58 ∧ 48 ≤ a4 ∧ a4 ≤ 53
        ∧ 48 ≤ a5 ∧ a5 ≤ 57 ∧ (a6 = 65 ∨ a6 = 80) ∧ a7 = 77
    · rw [if_pos hc] at h
      rcases hc with ⟨rfl, hb1, hb2, rfl, hb3, hb4, hb5, hb6, hp, rfl⟩
      have hm2 : m = canonVal (10 + (a2 - 48)) (10 * (a4 - 48) + (a5 - 48))
          (decide (a6 = 80)) := (Option.some.inj h).symm
      have hup : pyUpper [49, a2, 58, a4, a5, a6, 77] = [49, a2, 58, a4, a5, a6, 77] :=
        pyUpper_id _ (by
          intro c hc
          simp only [List.mem_cons, List.not_mem_nil, or_false] at hc
          rcases hp with rfl | rfl <;>
            rcases hc with rfl | rfl | rfl | rfl | rfl | rfl | rfl <;> omega)
      have hstrip : pyStrip [49, a2, 58, a4, a5, a6, 77]
          = [49, a2, 58, a4, a5, a6, 77] :=
        pyStrip_id _ (by
          intro c hc
          simp only [List.mem_cons, List.not_mem_nil, or_false] at hc
          refine not_ws_ge40 c ?_
          rcases hp with rfl | rfl <;>
            rcases hc with rfl | rfl | rfl | rfl | rfl | rfl | rfl <;> omega)
      have ht : pyStrip (pyUpper [49, a2, 58, a4, a5, a6, 77])
          = [49, a2] ++ 58 :: a4 :: a5 :: ([] ++ [a6, 77]) := by
        rw [hup, hstrip]
        rfl
      have heval := time_to_minutes_eval _ [49, a2] [] a4 a5 a6 ht (by simp)
        (by
          intro c hc
          simp only [List.mem_cons, List.not_mem_nil, or_false] at hc
          rcases hc with rfl | rfl
          · exact isDigitN_of _ (by omega) (by omega)
          · exact isDigitN_of _ (by omega) (by omega))
        (isDigitN_of _ (by omega) (by omega)) (isDigitN_of _ (by omega) (by omega))
        (by simp) hp
      constructor
      · rw [heval, hm2]
        congr 1
        rw [digitsVal_two]
        rcases hp with rfl | rfl
        · rw [show decide ((65 : Nat) = 80) = false from rfl, merAdjust_false,
            canonVal_false]
          split_ifs <;> omega
        · rw [show decide ((80 : Nat) = 80) = true from rfl, merAdjust_true,
            canonVal_true]
          split_ifs <;> omega
      · rw [hm2]
        rcases hp with rfl | rfl
        · rw [show decide ((65 : Nat) = 80) = false from rfl,
            render_canon (10 + (a2 - 48)) _ false (by omega) (by omega) (by omega),
            natDigits_10_12 _ (by omega) (by omega)]
          rw [show 48 + (10 + (a2 - 48) - 10) = a2 from by omega,
            show 48 + (10 * (a4 - 48) + (a5 - 48)) / 10 = a4 from by omega,
            show 48 + (10 * (a4 - 48) + (a5 - 48)) % 10 = a5 from by omega]
          rfl
        · rw [show decide ((80 : Nat) = 80) = true from rfl,
            render_canon (10 + (a2 - 48)) _ true (by omega) (by omega) (by omega),
            natDigits_10_12 _ (by omega) (by omega)]
          rw [show 48 + (10 + (a2 - 48) - 10) = a2 from by omega,
            show 48 + (10 * (a4 - 48) + (a5 - 48)) / 10 = a4 from by omega,
            show 48 + (10 * (a4 - 48) + (a5 - 48)) % 10 = a5 from by omega]
          rfl
    · rw [if_neg hc] at h
      cases h
  · cases h

set_option maxRecDepth 100000 in
set_option maxHeartbeats 2000000 in
theorem canonShape_minutes_all :
    ((List.range 1440).all (fun m => canonShape? (minutes_to_time m) == some m))
      = true := by
  decide

theorem canonShape_minutes (m : Nat) (hm : m < 1440) :
    canonShape? (minutes_to_time m) = some m := by
  have h := List.all_eq_true.1 canonShape_minutes_all m (List.mem_range.2 hm)
  exact eq_of_beq h

/-- **C6.** `time_to_minutes` and `minutes_to_time` are two-sided
inverses: parsing the rendering of any minutes value in `[0, 1439]`
returns that value, and rendering the parse of any canonically-formatted
clock string (hour `1..12`, no leading zero, `12` for both noon and
midnight, two minute digits, `AM`/`PM`) returns the string itself;
the non-canonical `"09:00AM"` normalizes to `"9:00AM"`. -/
theorem clock_time_roundtrip :
    (∀ m : Nat, m < 1440 → time_to_minutes (minutes_to_time m) = some (m : Int))
    ∧ (∀ (s : PyStr) (m : Nat), canonShape? s = some m →
        time_to_minutes s = some (m : Int) ∧ minutes_to_time m = s)
    ∧ time_to_minutes (pys "09:00AM") = some 540
    ∧ minutes_to_time 540 = pys "9:00AM" := by
  refine ⟨?_, canonShape_sound, by decide, by decide⟩
  intro m hm
  exact (canonShape_sound _ m (canonShape_minutes m hm)).1

/-- Witness for C6 at concrete values: 540 round-trips through the
rendering, and the canonical string `"7:05PM"` is a fixed point. -/
theorem clock_time_roundtrip_witness :
    time_to_minutes (minutes_to_time 540) = some (540 : Int)
    ∧ (time_to_minutes (pys "7:05PM") = some (1145 : Int)
        ∧ minutes_to_time 1145 = pys "7:05PM") :=
  ⟨clock_time_roundtrip.1 540 (by decide),
   clock_time_roundtrip.2.1 (pys "7:05PM") 1145 (by decide)⟩

/-- **C7 counterexample.** `"9AM"` is not of the spec's accepted shape
(`specParse` rejects it), yet `time_to_minutes` silently coerces it to
540 instead of failing — the missing minutes default to 0 — so the claim
"fails with MalformedTimeError on any other shape" is false.  (No
`MalformedTimeError` exists in the source at all; the only failure mode
is the `ValueError` from `int()`, modelled as `none`.) -/
theorem time_to_minutes_lenient_counterexample :
    specParse (pys "9AM") = none ∧ time_to_minutes (pys "9AM") = some 540 :=
  ⟨by decide, by decide⟩

/-- **C7 (amended).** `time_to_minutes` accepts at least the spec's
stated shapes — `"H:MM"`/`"HH:MM"` plus optional internal whitespace and
`AM`/`PM`, case-insensitive with surrounding whitespace, and `"NOON"` —
with the correct minutes value; but inputs outside those shapes are not
all rejected: an hour without minutes (`"9AM"` ↦ 540) or without a
meridiem (`"9:00"`, treated as AM) is silently coerced, and an error
(Python's `ValueError`, not a dedicated `MalformedTimeError`) surfaces
only when a numeric segment fails to parse (e.g. `"ABC"`). -/
theorem time_to_minutes_accepts_spec_shapes :
    (∀ (s : PyStr) (v : Int), specParse s = some v → time_to_minutes s = some v)
    ∧ time_to_minutes (pys "9AM") = some 540
    ∧ time_to_minutes (pys "9:00") = some 540
    ∧ time_to_minutes (pys "ABC") = none :=
  ⟨specParse_agree, by decide, by decide, by decide⟩

/-- Witness for C7 (amended) at a concrete accepted shape. -/
theorem time_to_minutes_accepts_spec_shapes_witness :
    time_to_minutes (pys " 10:35 pm ") = some (1355 : Int) :=
  time_to_minutes_accepts_spec_shapes.1 (pys " 10:35 pm ") 1355 (by decide)
